import Mathlib

set_option maxRecDepth 1000000
set_option maxHeartbeats 10000000

/-!
Verification of the gh-manager signed-plan / resumable-execution pipeline.

This file gives a shallow embedding of the core of the repository:

* package `planfile` (plan data model, canonical JSON projection,
  SHA-256 fingerprint, HMAC-SHA256 signature, validation),
* package `manifest` (execution manifest, derived counters),
* package `executor` (the orchestrator: confirmation gate, dry-run
  simulation, per-item backup/snapshot/bundle/delete pipeline with retry,
  archive size filter, archive publish phase).

Machine integers are modelled as `Nat`/`Int` with explicit wrap-around
where Go wraps (`% 2^32` in SHA-256).  Byte strings are `List Nat` with
each element a byte value.  Filesystem and collaborator behaviour is
modelled by explicit oracle records, and every externally visible action
of the executor is recorded in a trace of events, so that frame
properties (what was and was not invoked) are statable.
-/

namespace GhMgr

/-! ## Byte and string primitives (Go standard library behaviour) -/

/-- Byte-wise (code-point-wise) strict comparison of character lists.
Go compares strings byte-wise; for valid UTF-8 this coincides with
code-point order. -/
def charListLt : List Char → List Char → Bool
  | [], [] => false
  | [], _ :: _ => true
  | _ :: _, [] => false
  | a :: as, b :: bs =>
    if a.toNat < b.toNat then true
    else if b.toNat < a.toNat then false
    else charListLt as bs

/-- Go `<` on strings. -/
def strLt (a b : String) : Bool := charListLt a.data b.data

/-- Go `<=` on strings (negation of the reversed strict order). -/
def strLe (a b : String) : Bool := !(strLt b a)

/-- ASCII upper-casing of a character, as Go `strings.ToUpper` acts on the
ASCII range (the confirmation phrases are ASCII). -/
def asciiUpperChar (c : Char) : Char :=
  if 'a' ≤ c ∧ c ≤ 'z' then Char.ofNat (c.toNat - 32) else c

/-- ASCII lower-casing of a character, as Go `strings.ToLower` acts on the
ASCII range (hex signatures are ASCII). -/
def asciiLowerChar (c : Char) : Char :=
  if 'A' ≤ c ∧ c ≤ 'Z' then Char.ofNat (c.toNat + 32) else c

/-- Go `strings.ToUpper` restricted to the ASCII range. -/
def strToUpper (s : String) : String := String.mk (s.data.map asciiUpperChar)

/-- Go `strings.ToLower` restricted to the ASCII range. -/
def strToLower (s : String) : String := String.mk (s.data.map asciiLowerChar)

/-- Whitespace predicate of Go `unicode.IsSpace` on the characters that
can occur around a confirmation phrase. -/
def isSpaceChar (c : Char) : Bool :=
  c = ' ' || c = '\t' || c = '\n' || c = '\x0b' || c = '\x0c' || c = '\r'

/-- Go `strings.TrimSpace`: drop leading and trailing whitespace. -/
def trimSpace (s : String) : String :=
  String.mk (((s.data.dropWhile isSpaceChar).reverse.dropWhile isSpaceChar).reverse)

/-- UTF-8 encoding of one character, byte values as `Nat`. -/
def utf8Char (c : Char) : List Nat :=
  let n := c.toNat
  if n < 0x80 then [n]
  else if n < 0x800 then
    [0xC0 ||| (n >>> 6), 0x80 ||| (n &&& 0x3F)]
  else if n < 0x10000 then
    [0xE0 ||| (n >>> 12), 0x80 ||| ((n >>> 6) &&& 0x3F), 0x80 ||| (n &&& 0x3F)]
  else
    [0xF0 ||| (n >>> 18), 0x80 ||| ((n >>> 12) &&& 0x3F),
     0x80 ||| ((n >>> 6) &&& 0x3F), 0x80 ||| (n &&& 0x3F)]

/-- UTF-8 bytes of a string, as Go `[]byte(s)`. -/
def strBytes (s : String) : List Nat := s.data.flatMap utf8Char

/-- Lower-case hex digit for `n % 16`, the alphabet of Go
`encoding/hex`. -/
def hexChar (n : Nat) : Char :=
  if n % 16 < 10 then Char.ofNat (48 + n % 16) else Char.ofNat (87 + n % 16)

/-- Go `hex.EncodeToString`: two lower-case hex digits per byte. -/
def bytesToHex (bs : List Nat) : String :=
  String.mk (bs.flatMap (fun b => [hexChar (b / 16), hexChar b]))

/-! ## SHA-256 (Go `crypto/sha256`) -/

/-- Truncation to a 32-bit word. -/
def w32 (n : Nat) : Nat := n % 4294967296

/-- Right rotation of a 32-bit word. -/
def rotr (k w : Nat) : Nat := w32 ((w >>> k) ||| (w <<< (32 - k)))

/-- Round constants of SHA-256. -/
def sha256K : List Nat :=
  [1116352408, 1899447441, 3049323471, 3921009573, 961987163, 1508970993,
   2453635748, 2870763221, 3624381080, 310598401, 607225278, 1426881987,
   1925078388, 2162078206, 2614888103, 3248222580, 3835390401, 4022224774,
   264347078, 604807628, 770255983, 1249150122, 1555081692, 1996064986,
   2554220882, 2821834349, 2952996808, 3210313671, 3336571891, 3584528711,
   113926993, 338241895, 666307205, 773529912, 1294757372, 1396182291,
   1695183700, 1986661051, 2177026350, 2456956037, 2730485921, 2820302411,
   3259730800, 3345764771, 3516065817, 3600352804, 4094571909, 275423344,
   430227734, 506948616, 659060556, 883997877, 958139571, 1322822218,
   1537002063, 1747873779, 1955562222, 2024104815, 2227730452, 2361852424,
   2428436474, 2756734187, 3204031479, 3329325298]

/-- Hash state: eight 32-bit words. -/
structure Sha256State where
  a : Nat
  b : Nat
  c : Nat
  d : Nat
  e : Nat
  f : Nat
  g : Nat
  hh : Nat
deriving Repr, DecidableEq

/-- Initial hash value of SHA-256. -/
def sha256Init : Sha256State :=
  ⟨0x6a09e667, 0xbb67ae85, 0x3c6ef372, 0xa54ff53a,
   0x510e527f, 0x9b05688c, 0x1f83d9ab, 0x5be0cd19⟩

/-- Message-schedule extension: given the first words, append words 16
to 63. -/
def sha256ExtendRev (rev : List Nat) : Nat → List Nat
  | 0 => rev
  | k + 1 =>
    let x15 := rev.getD 14 0
    let x2 := rev.getD 1 0
    let s0 := (rotr 7 x15) ^^^ (rotr 18 x15) ^^^ (x15 >>> 3)
    let s1 := (rotr 17 x2) ^^^ (rotr 19 x2) ^^^ (x2 >>> 10)
    sha256ExtendRev (w32 (rev.getD 15 0 + s0 + rev.getD 6 0 + s1) :: rev) k

/-- Message-schedule extension: appends the requested number of derived
schedule words to the initial sixteen. -/
def sha256Extend (acc : List Nat) (k : Nat) : List Nat :=
  (sha256ExtendRev acc.reverse k).reverse

/-- One compression round, consuming the sum of the round constant and
schedule word. -/
def sha256Round (st : Sha256State) (kw : Nat) : Sha256State :=
  let s1 := (rotr 6 st.e) ^^^ (rotr 11 st.e) ^^^ (rotr 25 st.e)
  let ch := (st.e &&& st.f) ^^^ ((st.e ^^^ 0xffffffff) &&& st.g)
  let t1 := w32 (st.hh + s1 + ch + kw)
  let s0 := (rotr 2 st.a) ^^^ (rotr 13 st.a) ^^^ (rotr 22 st.a)
  let maj := (st.a &&& st.b) ^^^ (st.a &&& st.c) ^^^ (st.b &&& st.c)
  let t2 := w32 (s0 + maj)
  ⟨w32 (t1 + t2), st.a, st.b, st.c, w32 (st.d + t1), st.e, st.f, st.g⟩

/-- Big-endian packing of bytes into 32-bit words, four bytes per word. -/
def bytesToWords : List Nat → List Nat
  | b0 :: b1 :: b2 :: b3 :: rest =>
    (b0 <<< 24 ||| b1 <<< 16 ||| b2 <<< 8 ||| b3) :: bytesToWords rest
  | _ => []

/-- Compression of one 64-byte block into the running state. -/
def sha256Compress (st : Sha256State) (block : List Nat) : Sha256State :=
  let ws := sha256Extend (bytesToWords block) 48
  let r := (List.zipWith (fun k w => k + w) sha256K ws).foldl sha256Round st
  ⟨w32 (st.a + r.a), w32 (st.b + r.b), w32 (st.c + r.c), w32 (st.d + r.d),
   w32 (st.e + r.e), w32 (st.f + r.f), w32 (st.g + r.g), w32 (st.hh + r.hh)⟩

/-- Splitting a byte list into 64-byte blocks (fuelled structural
recursion; the fuel is the list length). -/
def chunks64Go : Nat → List Nat → List (List Nat)
  | 0, _ => []
  | _, [] => []
  | fuel + 1, l => l.take 64 :: chunks64Go fuel (l.drop 64)

/-- Splitting a byte list into 64-byte blocks. -/
def chunks64 (l : List Nat) : List (List Nat) := chunks64Go l.length l

/-- SHA-256 padding: `0x80`, zeros, then the bit length as eight
big-endian bytes. -/
def sha256Pad (msg : List Nat) : List Nat :=
  let len := msg.length
  let zeros := (119 - len % 64) % 64
  let bits := 8 * len
  msg ++ [0x80] ++ List.replicate zeros 0 ++
    ((List.range 8).map (fun i => (bits >>> (8 * (7 - i))) &&& 0xff))

/-- Big-endian serialization of the final state. -/
def sha256StateBytes (st : Sha256State) : List Nat :=
  [st.a, st.b, st.c, st.d, st.e, st.f, st.g, st.hh].flatMap
    (fun w => [(w >>> 24) &&& 0xff, (w >>> 16) &&& 0xff, (w >>> 8) &&& 0xff, w &&& 0xff])

/-- SHA-256 digest (32 bytes) of a byte message. -/
def sha256 (msg : List Nat) : List Nat :=
  sha256StateBytes ((chunks64 (sha256Pad msg)).foldl sha256Compress sha256Init)

/-- HMAC-SHA256 (Go `crypto/hmac` with `sha256.New`). -/
def hmacSha256 (key msg : List Nat) : List Nat :=
  let k0 := if 64 < key.length then sha256 key else key
  let k := k0 ++ List.replicate (64 - k0.length) 0
  sha256 ((k.map (fun b => b ^^^ 0x5c)) ++ sha256 ((k.map (fun b => b ^^^ 0x36)) ++ msg))

/-! ## Generic insertion sort

Go `sort.Slice` and `sort.Strings` guarantee only that the output is a
permutation of the input that is sorted for the supplied comparison; we
realise them with an insertion sort over a boolean `le`. -/

/-- Insertion of an element into a list, before the first element it is
`le`-below. -/
def insertLe (le : α → α → Bool) (a : α) : List α → List α
  | [] => [a]
  | x :: xs => if le a x then a :: x :: xs else x :: insertLe le a xs

/-- Insertion sort for a boolean comparison. -/
def sortLe (le : α → α → Bool) : List α → List α
  | [] => []
  | x :: xs => insertLe le x (sortLe le xs)

/-! ## JSON encoding (Go `encoding/json` on the structs of the source)

Go `json.Marshal` writes struct fields in declaration order under their
tag names, escapes `"`, `\`, control characters, and (HTML escaping
being on by default) `<`, `>`, `&`. -/

/-- Escape of one character inside a JSON string, as Go
`encoding/json` produces it. -/
def jsonEscapeChar (c : Char) : List Char :=
  if c = '"' then ['\\', '"']
  else if c = '\\' then ['\\', '\\']
  else if c = '<' then "\\u003c".data
  else if c = '>' then "\\u003e".data
  else if c = '&' then "\\u0026".data
  else if c = '\n' then ['\\', 'n']
  else if c = '\r' then ['\\', 'r']
  else if c = '\t' then ['\\', 't']
  else if c.toNat < 0x20 then
    ['\\', 'u', '0', '0', hexChar (c.toNat / 16), hexChar c.toNat]
  else if c.toNat = 0x2028 then "\\u2028".data
  else if c.toNat = 0x2029 then "\\u2029".data
  else [c]

/-- JSON string literal. -/
def jsonStr (s : String) : String :=
  "\"" ++ String.mk (s.data.flatMap jsonEscapeChar) ++ "\""

/-- JSON boolean literal. -/
def jsonBool (b : Bool) : String := if b then "true" else "false"

/-- JSON number literal for a Go `int`. -/
def jsonInt (i : Int) : String := toString i

/-- Comma-separated concatenation. -/
def joinComma : List String → String
  | [] => ""
  | [s] => s
  | s :: rest => s ++ "," ++ joinComma rest

/-! ## RFC3339 timestamp validity (Go `time.Parse(time.RFC3339, s)`) -/

/-- Decimal digit test. -/
def isDigit (c : Char) : Bool := '0' ≤ c ∧ c ≤ '9'

/-- Numeric value of two digit characters. -/
def twoDigits (a b : Char) : Nat := (a.toNat - 48) * 10 + (b.toNat - 48)

/-- Day count of a month, with Gregorian leap years. -/
def daysInMonth (year month : Nat) : Nat :=
  if month = 2 then
    if year % 4 = 0 ∧ (year % 100 ≠ 0 ∨ year % 400 = 0) then 29 else 28
  else if month = 4 ∨ month = 6 ∨ month = 9 ∨ month = 11 then 30
  else 31

/-- Validity of an RFC3339 zone suffix: `Z` or a signed `hh:mm`
offset. -/
def rfc3339Offset : List Char → Bool
  | ['Z'] => true
  | s :: h1 :: h2 :: ':' :: m1 :: m2 :: [] =>
    (s = '+' || s = '-') && isDigit h1 && isDigit h2 && isDigit m1 && isDigit m2 &&
      twoDigits h1 h2 ≤ 23 && twoDigits m1 m2 ≤ 59
  | _ => false

/-- Validity of the fractional-second-and-offset tail of an RFC3339
timestamp: an optional dot followed by digits, then the zone suffix. -/
def rfc3339Tail (cs : List Char) : Bool :=
  match cs with
  | '.' :: rest =>
    (rest.takeWhile isDigit).length > 0 && rfc3339Offset (rest.dropWhile isDigit)
  | _ => rfc3339Offset cs

/-- Validity of an RFC3339 timestamp as accepted by Go
`time.Parse(time.RFC3339, s)`: full date, `T`, full time, optional
fraction, `Z` or numeric offset, with calendar range checks. -/
def rfc3339Parses (s : String) : Bool :=
  match s.data with
  | y1 :: y2 :: y3 :: y4 :: '-' :: mo1 :: mo2 :: '-' :: d1 :: d2 :: 'T' ::
      h1 :: h2 :: ':' :: mi1 :: mi2 :: ':' :: s1 :: s2 :: rest =>
    isDigit y1 && isDigit y2 && isDigit y3 && isDigit y4 &&
    isDigit mo1 && isDigit mo2 && isDigit d1 && isDigit d2 &&
    isDigit h1 && isDigit h2 && isDigit mi1 && isDigit mi2 &&
    isDigit s1 && isDigit s2 &&
    (let year := ((y1.toNat - 48) * 10 + (y2.toNat - 48)) * 100 + twoDigits y3 y4
     let month := twoDigits mo1 mo2
     1 ≤ month && month ≤ 12 &&
     1 ≤ twoDigits d1 d2 && twoDigits d1 d2 ≤ daysInMonth year month &&
     twoDigits h1 h2 ≤ 23 && twoDigits mi1 mi2 ≤ 59 && twoDigits s1 s2 ≤ 59) &&
    rfc3339Tail rest
  | _ => false

/-! ## Package `planfile` -/

/-- Target record of a plan (`planfile.RepoRecord`). -/
structure RepoRecord where
  owner : String
  name : String
  fullName : String
  description : String
  isPrivate : Bool
  isFork : Bool
  isArchived : Bool
  updatedAt : String
deriving Repr, DecidableEq

/-- Signed deletion/backup plan (`planfile.DeletionPlanV1`).  The Go
`Count` field is an `int`; a deserialized plan can carry any value, so
it is an `Int` here. -/
structure DeletionPlanV1 where
  schemaVersion : String
  createdAt : String
  actor : String
  host : String
  repos : List RepoRecord
  count : Int
  fingerprint : String
  signature : String
  toolVersion : String
deriving Repr, DecidableEq

namespace planfile

/-- Comparison used by `sort.Slice` in `planfile.New` and
`ComputeFingerprint`: strictly below on full names, totalised to
at-most for the sort. -/
def repoLe (a b : RepoRecord) : Bool := strLe a.fullName b.fullName

/-- Sorting of repo records by full name (`sort.Slice` with
`FullName` less-than). -/
def sortRepos (rs : List RepoRecord) : List RepoRecord := sortLe repoLe rs

/-- Plan constructor `planfile.New`.  The Go function receives a
`time.Time` and stamps `now.UTC().Format(time.RFC3339)`; the embedding
receives that formatted string directly. -/
def New (actor host toolVersion : String) (repos : List RepoRecord)
    (nowRFC3339 : String) : DeletionPlanV1 :=
  let sorted := sortRepos repos
  { schemaVersion := "v1"
    createdAt := nowRFC3339
    actor := actor
    host := host
    repos := sorted
    count := Int.ofNat sorted.length
    fingerprint := ""
    signature := ""
    toolVersion := "" ++ toolVersion }

/-- JSON object for one repo record, exactly the tag names and field
order of the Go struct. -/
def repoRecordJson (r : RepoRecord) : String :=
  "\x7b\"owner\":" ++ jsonStr r.owner ++
  ",\"name\":" ++ jsonStr r.name ++
  ",\"fullName\":" ++ jsonStr r.fullName ++
  ",\"description\":" ++ jsonStr r.description ++
  ",\"isPrivate\":" ++ jsonBool r.isPrivate ++
  ",\"isFork\":" ++ jsonBool r.isFork ++
  ",\"isArchived\":" ++ jsonBool r.isArchived ++
  ",\"updatedAt\":" ++ jsonStr r.updatedAt ++ "\x7d"

/-- JSON for the copied repo slice of `canonicalPlan`.  The copy made
with `append([]RepoRecord(nil), ...)` of an empty slice is the nil
slice, which Go marshals as `null`. -/
def reposJson : List RepoRecord → String
  | [] => "null"
  | rs => "[" ++ joinComma (rs.map repoRecordJson) ++ "]"

/-- Serialized canonical projection (`canonicalPlan`) of a plan:
every field except fingerprint and signature, with the repo records
sorted by full name before marshalling. -/
def canonicalPlanJson (p : DeletionPlanV1) : String :=
  "\x7b\"schemaVersion\":" ++ jsonStr p.schemaVersion ++
  ",\"createdAt\":" ++ jsonStr p.createdAt ++
  ",\"actor\":" ++ jsonStr p.actor ++
  ",\"host\":" ++ jsonStr p.host ++
  ",\"repos\":" ++ reposJson (sortRepos p.repos) ++
  ",\"count\":" ++ jsonInt p.count ++
  ",\"toolVersion\":" ++ jsonStr p.toolVersion ++ "\x7d"

/-- Fingerprint `planfile.ComputeFingerprint`: SHA-256 of the canonical
JSON, hex encoded.  The Go version can only fail if `json.Marshal`
fails, which is impossible for these field types, so the model is
total. -/
def ComputeFingerprint (p : DeletionPlanV1) : String :=
  bytesToHex (sha256 (strBytes (canonicalPlanJson p)))

/-- Signing `planfile.Sign`: requires a non-empty secret, stores the
fingerprint and the hex HMAC-SHA256 of the fingerprint string. -/
def Sign (p : DeletionPlanV1) (secret : List Nat) : Except String DeletionPlanV1 :=
  if secret.length = 0 then .error "empty signing secret"
  else
    let fp := ComputeFingerprint p
    .ok { p with
            fingerprint := fp
            signature := bytesToHex (hmacSha256 secret (strBytes fp)) }

/-- Validation `planfile.Validate`: schema version, count, timestamp,
fingerprint recomputation, and constant-time signature comparison
against the HMAC of the recomputed fingerprint (the stored signature is
lower-cased first). -/
def Validate (p : DeletionPlanV1) (secret : List Nat) : Except String Unit :=
  if p.schemaVersion ≠ "v1" then
    .error ("unsupported schemaVersion: " ++ p.schemaVersion)
  else if p.count ≠ Int.ofNat p.repos.length then
    .error ("count mismatch: count=" ++ toString p.count ++
            " repos=" ++ toString p.repos.length)
  else if ¬ rfc3339Parses p.createdAt then
    .error "invalid createdAt"
  else
    let fp := ComputeFingerprint p
    if p.fingerprint ≠ fp then .error "fingerprint mismatch"
    else
      let expected := bytesToHex (hmacSha256 secret (strBytes fp))
      if expected ≠ strToLower p.signature then .error "invalid signature"
      else .ok ()

end planfile

/-! ## Package `manifest` -/

/-- Go `filepath.Join` for the non-empty, already-clean paths the
executor builds. -/
def joinPath (a b : String) : String := if a = "" then b else a ++ "/" ++ b

/-- Go `filepath.Base`: the last non-empty path component. -/
def pathBase (s : String) : String :=
  match ((s.splitOn "/").filter (fun x => x ≠ "")).getLast? with
  | some p => p
  | none => if s = "" then "." else "/"

namespace manifest

/-- Status constant `manifest.StatusPending`. -/
def StatusPending : String := "pending"

/-- Status constant `manifest.StatusBackupOK`. -/
def StatusBackupOK : String := "backup_ok"

/-- Status constant `manifest.StatusDeleted`. -/
def StatusDeleted : String := "deleted"

/-- Status constant `manifest.StatusBackupFailed`. -/
def StatusBackupFailed : String := "backup_failed"

/-- Status constant `manifest.StatusDeleteFailed`. -/
def StatusDeleteFailed : String := "delete_failed"

/-- Per-item execution entry (`manifest.RepoExecutionEntry`).  Statuses
are strings, as in the source, since a manifest read from disk can carry
any value.  `attempts` is increment-only in the source, hence `Nat`. -/
structure RepoExecutionEntry where
  fullName : String
  status : String
  backupPath : String
  browsablePath : String
  bundlePath : String
  archiveCommit : String
  archiveStatus : String
  error : String
  attempts : Nat
  lastAttemptAt : String
deriving Repr, DecidableEq

/-- Execution manifest (`manifest.ExecutionManifestV1`). -/
structure ExecutionManifestV1 where
  schemaVersion : String
  mode : String
  planFingerprint : String
  planPath : String
  actor : String
  host : String
  archiveRepo : String
  archiveBranch : String
  backupRoot : String
  createdAt : String
  updatedAt : String
  repoExecutions : List RepoExecutionEntry
  deletedCount : Nat
  failedCount : Nat
  skippedFailCount : Nat
deriving Repr, DecidableEq

/-- Options of `manifest.New`. -/
structure NewOptions where
  mode : String
  archiveRepo : String
  archiveBranch : String
deriving Repr, DecidableEq

/-- Transient archive artifact (`manifest.BundleArtifact`). -/
structure BundleArtifact where
  fullName : String
  bundlePath : String
  updatedAt : String
deriving Repr, DecidableEq

/-- Constructor `manifest.New`: one pending entry per plan target;
archive status starts `pending` only in backup mode, otherwise
`skipped`.  The Go function stamps `now.UTC().Format(time.RFC3339)`;
the embedding receives that formatted string. -/
def New (planPath backupRoot : String) (p : DeletionPlanV1) (nowRFC3339 : String)
    (opts : NewOptions) : ExecutionManifestV1 :=
  let repos := p.repos.map (fun r =>
    { fullName := r.fullName
      status := StatusPending
      backupPath := ""
      browsablePath := ""
      bundlePath := ""
      archiveCommit := ""
      archiveStatus := if opts.mode = "backup" then "pending" else "skipped"
      error := ""
      attempts := 0
      lastAttemptAt := "" : RepoExecutionEntry })
  { schemaVersion := "v1"
    mode := opts.mode
    planFingerprint := p.fingerprint
    planPath := planPath
    actor := p.actor
    host := p.host
    archiveRepo := opts.archiveRepo
    archiveBranch := opts.archiveBranch
    backupRoot := backupRoot
    createdAt := nowRFC3339
    updatedAt := nowRFC3339
    repoExecutions := repos
    deletedCount := 0
    failedCount := 0
    skippedFailCount := 0 }

/-- Manifest file location `manifest.Path`. -/
def Path (backupRoot : String) : String := joinPath backupRoot "manifest.json"

/-- Timestamp update `manifest.Touch`. -/
def Touch (m : ExecutionManifestV1) (nowRFC3339 : String) : ExecutionManifestV1 :=
  { m with updatedAt := nowRFC3339 }

/-- Counter recomputation `manifest.RecomputeCounters`: deleted equals
the count of entries with status `deleted`; failed equals the count of
entries with status `backup_failed` or `delete_failed`. -/
def RecomputeCounters (m : ExecutionManifestV1) : ExecutionManifestV1 :=
  let deleted := m.repoExecutions.countP (fun r => r.status == StatusDeleted)
  let failed := m.repoExecutions.countP
    (fun r => r.status == StatusBackupFailed || r.status == StatusDeleteFailed)
  { m with deletedCount := deleted, failedCount := failed, skippedFailCount := failed }

/-- Serialized view of `manifest.Write`: `Write` recomputes the
aggregate counters on its value-receiver copy before marshalling, so
the record on disk is `RecomputeCounters m`, while the in-memory
manifest keeps its counters. -/
def writeView (m : ExecutionManifestV1) : ExecutionManifestV1 := RecomputeCounters m

end manifest

/-! ## Package `executor`

External behaviour (collaborators, filesystem, stdin/stdout) is
modelled by oracle records; everything the executor does to the world
is also recorded in an event trace, so absence of calls is statable. -/

namespace executor

/-- Mode constant `executor.ModeDelete`. -/
def ModeDelete : String := "delete"

/-- Mode constant `executor.ModeBackup`. -/
def ModeBackup : String := "backup"

/-- Size ceiling `archiveMaxBundleSizeBytes` (100 MiB). -/
def archiveMaxBundleSizeBytes : Int := 100 * 1024 * 1024

/-- Configuration (`executor.Config`).  `maxDeleteRetries` is a Go
`int`, defaulted when non-positive. -/
structure Config where
  planPath : String := ""
  resume : Bool := false
  backupDir : String := ""
  maxDeleteRetries : Int := 0
  mode : String := ""
  dryRun : Bool := false
  archiveRepo : String := ""
  archiveBranch : String := ""
  archiveVisibility : String := ""
  noArchive : Bool := false
deriving Repr, DecidableEq

/-- Result summary (`executor.Result`). -/
structure Result where
  manifestPath : String := ""
  backupRoot : String := ""
  deleted : Nat := 0
  failed : Nat := 0
  archiveFailed : Nat := 0
  archiveSkippedSize : Nat := 0
  total : Nat := 0
  archiveCommit : String := ""
  archiveRepo : String := ""
  archiveBranch : String := ""
  archiveSkippedRepos : List String := []
deriving Repr, DecidableEq

/-- Trace event: one externally visible action of the executor. -/
inductive Event where
  | print (line : String)
  | mkdirAll (path : String)
  | writeManifest (path : String) (payload : manifest.ExecutionManifestV1)
  | callMirror (fullName : String)
  | callSnapshot (fullName : String)
  | callBundle (fullName : String)
  | callDelete (fullName : String) (attempt : Nat)
  | callEnsureRepo (repo vis : String)
  | callPublish (repo branch : String)
  | statFile (path : String)
  | moveFile (src dst : String)
deriving Repr, DecidableEq

/-- Collaborator-call test: true exactly for deleter, backup-provider,
archive-repo-manager and archive-publisher invocations. -/
def Event.isCollabCall : Event → Bool
  | .callMirror _ => true
  | .callSnapshot _ => true
  | .callBundle _ => true
  | .callDelete _ _ => true
  | .callEnsureRepo _ _ => true
  | .callPublish _ _ => true
  | _ => false

/-- Filesystem-mutation test: directory creation, manifest writes, file
moves. -/
def Event.isFsMutation : Event → Bool
  | .mkdirAll _ => true
  | .writeManifest _ _ => true
  | .moveFile _ _ => true
  | _ => false

/-- Deleter-call test for one full name. -/
def Event.isDeleteFor (name : String) : Event → Bool
  | .callDelete n _ => n == name
  | _ => false

/-- Collaborator-call test for one full name (the per-item pipeline
calls). -/
def Event.isItemCallFor (name : String) : Event → Bool
  | .callMirror n => n == name
  | .callSnapshot n => n == name
  | .callBundle n => n == name
  | .callDelete n _ => n == name
  | _ => false

/-- Manifest-write test. -/
def Event.isWrite : Event → Bool
  | .writeManifest _ _ => true
  | _ => false

/-- Print test. -/
def Event.isPrint : Event → Bool
  | .print _ => true
  | _ => false

/-- Backup provider behaviour (`executor.BackupProvider`): each
operation maps a repo and the backup root to a path or an error. -/
structure BackupProviderModel where
  mirrorBackup : RepoRecord → String → Except String String
  createBrowsableSnapshot : RepoRecord → String → Except String String
  createBundle : RepoRecord → String → Except String String

/-- Executor with its collaborators (`executor.Executor`).  A `none`
collaborator is a nil Go interface.  The deleter may answer differently
on the retry attempts of one pass, so it is a function of the 1-based
attempt number.  `nowTs` is the formatted `e.Now().UTC()` timestamp;
execution is fast relative to the second-granularity format, so one
constant string models every call of `Now` in a run.  `confirmText` is
the line read from the input stream and `confirmReadErr` a non-EOF read
error. -/
structure ExecEnv where
  gh : Option (String → Nat → Option String)
  repoMgr : Option (String → String → Option String)
  backup : Option BackupProviderModel
  archive : Option (String → String → String → List manifest.BundleArtifact → String → Except String String)
  nowTs : String
  confirmText : String
  confirmReadErr : Option String

/-- Filesystem oracle: whether a manifest file already exists in the
resolved backup root and what reading it yields, `os.Stat` sizes,
`moveFile` outcomes, the result of the home-directory scan
(`findExistingBackupRoot`, empty when none matches) and the fresh
timestamped default root (`app.DefaultBackupRoot`). -/
structure FSModel where
  manifestExists : Bool
  manifestRead : Except String manifest.ExecutionManifestV1
  statSize : String → Except String Int
  moveErr : String → String → Option String
  homeScanRoot : String
  defaultRoot : String

/-- Confirmation gate `requireConfirmation`: prompt, one line of input,
trimmed and upper-cased, must equal one of the two accepted phrases. -/
def requireConfirmation (env : ExecEnv) : Except String Unit × List Event :=
  let evs := [Event.print "Type ACCEPT or CONFIRM to continue: "]
  match env.confirmReadErr with
  | some e => (.error e, evs)
  | none =>
    let input := strToUpper (trimSpace env.confirmText)
    if input ≠ "ACCEPT" ∧ input ≠ "CONFIRM" then
      (.error "confirmation phrase mismatch", evs)
    else (.ok (), evs)

/-- Skip test `shouldSkipEntry`: `deleted` in delete mode, `backup_ok`
with a non-empty bundle path otherwise. -/
def shouldSkipEntry (mode : String) (entry : manifest.RepoExecutionEntry) : Bool :=
  if mode = ModeDelete then entry.status = manifest.StatusDeleted
  else entry.status = manifest.StatusBackupOK && entry.bundlePath ≠ ""

/-- Per-item lines of the dry-run simulation loop: mirror and snapshot
lines always, a bundle line in backup mode, a delete line in delete
mode. -/
def simulateRepoLines (cfg : Config) (backupRoot : String) (repo : RepoRecord) : List Event :=
  [Event.print ("[dry-run] Would mirror backup " ++ repo.fullName ++ " to " ++ backupRoot ++ "\n"),
   Event.print ("[dry-run] Would create browsable snapshot for " ++ repo.fullName ++ "\n")] ++
  (if cfg.mode = ModeBackup then
    [Event.print ("[dry-run] Would create bundle for " ++ repo.fullName ++ "\n")] else []) ++
  (if cfg.mode = ModeDelete then
    [Event.print ("[dry-run] Would delete " ++ repo.fullName ++ "\n")] else [])

/-- Dry-run branch `Executor.simulate`: prints one line per item per
applicable stage, one publish line when archiving applies, and builds a
result with zero counters. -/
def simulate (cfg : Config) (plan : DeletionPlanV1) (backupRoot : String) :
    Result × List Event :=
  let archiveBranch := if cfg.archiveBranch = "" then "main" else cfg.archiveBranch
  let perRepo := plan.repos.flatMap (simulateRepoLines cfg backupRoot)
  let archiveRepo :=
    if cfg.mode = ModeBackup ∧ ¬ cfg.noArchive then
      (if cfg.archiveRepo = "" then plan.actor ++ "/gh-manager-archive" else cfg.archiveRepo)
    else cfg.archiveRepo
  let evA : List Event :=
    if cfg.mode = ModeBackup ∧ ¬ cfg.noArchive then
      [Event.print ("[dry-run] Would publish bundles to " ++ archiveRepo ++
        " (branch " ++ archiveBranch ++ ")\n")]
    else []
  ({ manifestPath := "<dry-run>"
     backupRoot := backupRoot
     total := plan.repos.length
     archiveRepo := archiveRepo
     archiveBranch := archiveBranch }, perRepo ++ evA)

/-- Archive bookkeeping `markArchiveSuccess`: entries named by the
published bundles that are `backup_ok` with a bundle get status
`archived` and the commit id. -/
def markArchiveSuccess (m : manifest.ExecutionManifestV1) (commit : String)
    (targets : List manifest.BundleArtifact) : manifest.ExecutionManifestV1 :=
  let names := targets.map (fun t => t.fullName)
  { m with repoExecutions := m.repoExecutions.map (fun e =>
      if names.contains e.fullName ∧ e.status = manifest.StatusBackupOK ∧ e.bundlePath ≠ "" then
        { e with archiveStatus := "archived", archiveCommit := commit }
      else e) }

/-- Archive bookkeeping `markArchiveFailure`: entries named by the
eligible bundles that are `backup_ok` with a bundle get status
`archive_failed` and the error text. -/
def markArchiveFailure (m : manifest.ExecutionManifestV1) (errText : String)
    (targets : List manifest.BundleArtifact) : manifest.ExecutionManifestV1 :=
  let names := targets.map (fun t => t.fullName)
  { m with repoExecutions := m.repoExecutions.map (fun e =>
      if names.contains e.fullName ∧ e.status = manifest.StatusBackupOK ∧ e.bundlePath ≠ "" then
        { e with archiveStatus := "archive_failed", error := errText }
      else e) }

/-- Archive bookkeeping `markArchiveSkipped`: every `backup_ok` entry
with a bundle whose archive status is still `pending` becomes
`skipped`. -/
def markArchiveSkipped (m : manifest.ExecutionManifestV1) : manifest.ExecutionManifestV1 :=
  { m with repoExecutions := m.repoExecutions.map (fun e =>
      if e.status = manifest.StatusBackupOK ∧ e.bundlePath ≠ "" ∧ e.archiveStatus = "pending" then
        { e with archiveStatus := "skipped" }
      else e) }

/-- Count `countArchiveFailures`. -/
def countArchiveFailures (m : manifest.ExecutionManifestV1) : Nat :=
  m.repoExecutions.countP (fun e => e.archiveStatus == "archive_failed")

/-- Count `countArchiveSkippedSize`. -/
def countArchiveSkippedSize (m : manifest.ExecutionManifestV1) : Nat :=
  m.repoExecutions.countP (fun e => e.archiveStatus == "archive_skipped_size_limit")

/-- Listing `listArchiveSkippedSizeRepos` (`sort.Strings` at the
end). -/
def listArchiveSkippedSizeRepos (m : manifest.ExecutionManifestV1) : List String :=
  sortLe strLe ((m.repoExecutions.filter
    (fun e => e.archiveStatus == "archive_skipped_size_limit")).map (fun e => e.fullName))

/-- Update of the first manifest entry with a given full name, the
effect of mutating through `findEntry`; no entry, no change. -/
def updateEntryNamed (f : manifest.RepoExecutionEntry → manifest.RepoExecutionEntry)
    (name : String) : List manifest.RepoExecutionEntry → List manifest.RepoExecutionEntry
  | [] => []
  | e :: rest =>
    if e.fullName = name then f e :: rest else e :: updateEntryNamed f name rest

/-- Body of the `filterArchiveBundlesBySize` loop over the candidate
bundles. -/
def filterBundlesGo (fs : FSModel) (skippedDir : String) (maxBytes : Int) :
    List manifest.BundleArtifact → manifest.ExecutionManifestV1 →
    List manifest.BundleArtifact × List String × manifest.ExecutionManifestV1 × List Event
  | [], m => ([], [], m, [])
  | b :: rest, m =>
    let statEv := Event.statFile b.bundlePath
    match fs.statSize b.bundlePath with
    | .error e =>
      let f := fun en : manifest.RepoExecutionEntry =>
        { en with archiveStatus := "archive_failed",
                  error := "bundle stat failed: " ++ e }
      let m1 := { m with repoExecutions := updateEntryNamed f b.fullName m.repoExecutions }
      let r := filterBundlesGo fs skippedDir maxBytes rest m1
      (r.1, r.2.1, r.2.2.1, statEv :: r.2.2.2)
    | .ok size =>
      if maxBytes < size then
        let newPath := joinPath skippedDir (pathBase b.bundlePath)
        let mvEv := Event.moveFile b.bundlePath newPath
        match fs.moveErr b.bundlePath newPath with
        | some mvErr =>
          let f := fun en : manifest.RepoExecutionEntry =>
            { en with archiveStatus := "archive_failed",
                      error := "failed moving oversized bundle: " ++ mvErr }
          let m1 := { m with repoExecutions := updateEntryNamed f b.fullName m.repoExecutions }
          let r := filterBundlesGo fs skippedDir maxBytes rest m1
          (r.1, r.2.1, r.2.2.1, statEv :: mvEv :: r.2.2.2)
        | none =>
          let f := fun en : manifest.RepoExecutionEntry =>
            { en with bundlePath := newPath,
                      archiveStatus := "archive_skipped_size_limit",
                      error := "bundle size " ++ toString size ++
                        " exceeds archive limit " ++ toString maxBytes ++ " bytes" }
          let m1 := { m with repoExecutions := updateEntryNamed f b.fullName m.repoExecutions }
          let prEv := Event.print ("Archive skip (size): " ++ b.fullName ++
            " (" ++ toString size ++ " bytes)\n")
          let r := filterBundlesGo fs skippedDir maxBytes rest m1
          (r.1, b.fullName :: r.2.1, r.2.2.1, statEv :: mvEv :: prEv :: r.2.2.2)
      else
        let r := filterBundlesGo fs skippedDir maxBytes rest m
        (b :: r.1, r.2.1, r.2.2.1, statEv :: r.2.2.2)

/-- Size filter `filterArchiveBundlesBySize`: stats each candidate
bundle, moves oversized ones into the `archive-skipped-size` folder and
records the outcome on the corresponding manifest entry.  Returns the
eligible bundles, the skipped names, the updated manifest and the
trace. -/
def filterArchiveBundlesBySize (fs : FSModel) (backupRoot : String)
    (bundles : List manifest.BundleArtifact) (m : manifest.ExecutionManifestV1)
    (maxBytes : Int) :
    List manifest.BundleArtifact × List String × manifest.ExecutionManifestV1 × List Event :=
  let skippedDir := joinPath backupRoot "archive-skipped-size"
  let r := filterBundlesGo fs skippedDir maxBytes bundles m
  (r.1, r.2.1, r.2.2.1, Event.mkdirAll skippedDir :: r.2.2.2)

/-- Guarded manifest load `loadOrCreateManifest`: an existing manifest
file without `resume` is an error; a loaded manifest must match the
plan fingerprint and the requested mode; otherwise a fresh manifest is
created and written.  Manifest writes are modelled as succeeding. -/
def loadOrCreateManifest (fs : FSModel) (cfg : Config) (plan : DeletionPlanV1)
    (backupRoot manifestPath nowTs : String) :
    Except String (manifest.ExecutionManifestV1 × List Event) :=
  if fs.manifestExists then
    if ¬ cfg.resume then .error "manifest already exists and --resume=false"
    else
      match fs.manifestRead with
      | .error e => .error e
      | .ok m =>
        if m.planFingerprint ≠ plan.fingerprint then
          .error "manifest plan fingerprint mismatch"
        else if m.mode ≠ "" ∧ cfg.mode ≠ "" ∧ m.mode ≠ cfg.mode then
          .error "manifest mode mismatch"
        else .ok (m, [])
  else
    let m := manifest.New cfg.planPath backupRoot plan nowTs
      { mode := cfg.mode, archiveRepo := cfg.archiveRepo, archiveBranch := cfg.archiveBranch }
    .ok (m, [Event.writeManifest manifestPath (manifest.writeView m)])

/-- Root resolution `resolveBackupRoot`: explicit path wins, then the
home-directory scan when resuming, then a fresh timestamped root. -/
def resolveBackupRoot (fs : FSModel) (explicit : String) (resume : Bool) : String :=
  if explicit ≠ "" then explicit
  else if resume ∧ fs.homeScanRoot ≠ "" then fs.homeScanRoot
  else fs.defaultRoot

/-- Go map built over `plan.Repos` keyed by full name: a later
duplicate overwrites an earlier one. -/
def lookupLast (repos : List RepoRecord) (name : String) : Option RepoRecord :=
  (repos.filter (fun r => r.fullName = name)).getLast?

/-- Manifest-write event after `m.Touch(now)` followed by
`manifest.Write`. -/
def persistTouched (mpath nowTs : String) (m : manifest.ExecutionManifestV1) : Event :=
  .writeManifest mpath (manifest.writeView (manifest.Touch m nowTs))

/-- Delete retry loop: at most the given number of remaining attempts,
stopping at the first success, keeping the error of the last attempt
made. -/
def deleteAttempts (del : String → Nat → Option String) (name : String)
    (attempt : Nat) : Nat → Option String × List Event
  | 0 => (none, [])
  | k + 1 =>
    let ev := Event.callDelete name attempt
    match del name attempt with
    | none => (none, [ev])
    | some e =>
      match k with
      | 0 => (some e, [ev])
      | k' + 1 =>
        let (r, evs) := deleteAttempts del name (attempt + 1) (k' + 1)
        (r, ev :: evs)

/-- Backup stage of the per-item pipeline: mirror the repository unless
a previous pass already backed it up.  Yields the updated entry, its
events, whether the manifest timestamp was touched, and whether this
item's pipeline halts for the pass. -/
def backupStage (env : ExecEnv) (bp : BackupProviderModel) (repo : RepoRecord)
    (mpath backupRoot : String)
    (mk : manifest.RepoExecutionEntry → manifest.ExecutionManifestV1)
    (entry : manifest.RepoExecutionEntry) :
    manifest.RepoExecutionEntry × List Event × Bool × Bool :=
  if entry.backupPath = "" ∨ entry.status = manifest.StatusPending ∨
      entry.status = manifest.StatusBackupFailed then
    let pre := [Event.print ("Backing up " ++ repo.fullName ++ "...\n"),
                Event.callMirror repo.fullName]
    match bp.mirrorBackup repo backupRoot with
    | .error berr =>
      let e1 := { entry with
                  attempts := entry.attempts + 1
                  lastAttemptAt := env.nowTs
                  status := manifest.StatusBackupFailed
                  error := berr }
      (e1, pre ++ [persistTouched mpath env.nowTs (mk e1),
            Event.print ("Backup failed for " ++ repo.fullName ++ ": " ++ berr ++ "\n")],
       true, true)
    | .ok backupPath =>
      let e1 := { entry with
                  attempts := entry.attempts + 1
                  lastAttemptAt := env.nowTs
                  backupPath := backupPath
                  status := manifest.StatusBackupOK
                  error := "" }
      (e1, pre ++ [persistTouched mpath env.nowTs (mk e1)], true, false)
  else (entry, [], false, false)

/-- Snapshot stage of the per-item pipeline: create the browsable
snapshot unless one already exists. -/
def snapshotStage (env : ExecEnv) (bp : BackupProviderModel) (repo : RepoRecord)
    (mpath backupRoot : String)
    (mk : manifest.RepoExecutionEntry → manifest.ExecutionManifestV1)
    (e1 : manifest.RepoExecutionEntry) :
    manifest.RepoExecutionEntry × List Event × Bool × Bool :=
  if e1.browsablePath = "" then
    let pre := [Event.print ("Creating browsable snapshot " ++ repo.fullName ++ "...\n"),
                Event.callSnapshot repo.fullName]
    match bp.createBrowsableSnapshot repo backupRoot with
    | .error serr =>
      let e2 := { e1 with
                  attempts := e1.attempts + 1
                  lastAttemptAt := env.nowTs
                  status := manifest.StatusBackupFailed
                  error := serr }
      (e2, pre ++ [persistTouched mpath env.nowTs (mk e2),
            Event.print ("Browsable snapshot failed for " ++ repo.fullName ++ ": " ++ serr ++ "\n")],
       true, true)
    | .ok snapshotPath =>
      let e2 := { e1 with
                  attempts := e1.attempts + 1
                  lastAttemptAt := env.nowTs
                  browsablePath := snapshotPath
                  error := "" }
      (e2, pre ++ [persistTouched mpath env.nowTs (mk e2)], true, false)
  else (e1, [], false, false)

/-- Bundle stage of the per-item pipeline (backup mode): create the git
bundle unless one already exists. -/
def bundleStage (env : ExecEnv) (bp : BackupProviderModel) (repo : RepoRecord)
    (mpath backupRoot : String)
    (mk : manifest.RepoExecutionEntry → manifest.ExecutionManifestV1)
    (e2 : manifest.RepoExecutionEntry) :
    manifest.RepoExecutionEntry × List Event × Bool × Bool :=
  if e2.bundlePath = "" then
    let pre := [Event.print ("Creating bundle " ++ repo.fullName ++ "...\n"),
                Event.callBundle repo.fullName]
    match bp.createBundle repo backupRoot with
    | .error berr =>
      let e3 := { e2 with
                  attempts := e2.attempts + 1
                  lastAttemptAt := env.nowTs
                  status := manifest.StatusBackupFailed
                  error := berr }
      (e3, pre ++ [persistTouched mpath env.nowTs (mk e3),
            Event.print ("Bundle failed for " ++ repo.fullName ++ ": " ++ berr ++ "\n")],
       true, true)
    | .ok bundlePath =>
      let e3 := { e2 with
                  attempts := e2.attempts + 1
                  lastAttemptAt := env.nowTs
                  bundlePath := bundlePath
                  error := "" }
      (e3, pre ++ [persistTouched mpath env.nowTs (mk e3)], true, false)
  else (e2, [], false, false)

/-- Delete stage of the per-item pipeline (delete mode): the retried
delete with its single bookkeeping update.  Yields the updated entry
and the stage events; the manifest timestamp is always touched. -/
def deleteStage (env : ExecEnv) (retries : Nat) (del : String → Nat → Option String)
    (repo : RepoRecord) (mpath : String)
    (mk : manifest.RepoExecutionEntry → manifest.ExecutionManifestV1)
    (e2 : manifest.RepoExecutionEntry) :
    manifest.RepoExecutionEntry × List Event :=
  let preDel := Event.print ("Deleting " ++ repo.fullName ++ "...\n")
  let dres := deleteAttempts del repo.fullName 1 retries
  match dres.1 with
  | some e =>
    let e3 := { e2 with
                attempts := e2.attempts + 1
                lastAttemptAt := env.nowTs
                status := manifest.StatusDeleteFailed
                error := e }
    (e3, [preDel] ++ dres.2 ++
      [Event.print ("Delete failed for " ++ repo.fullName ++ ": " ++ e ++ "\n"),
       persistTouched mpath env.nowTs (mk e3)])
  | none =>
    let e3 := { e2 with
                attempts := e2.attempts + 1
                lastAttemptAt := env.nowTs
                status := manifest.StatusDeleted
                error := "" }
    (e3, [preDel] ++ dres.2 ++
      [Event.print ("Deleted " ++ repo.fullName ++ "\n"),
       persistTouched mpath env.nowTs (mk e3)])

/-- Per-item pipeline, the body of the `Execute` loop: skip check,
plan-membership check, backup, snapshot, then bundle (backup mode) or
retried delete (delete mode).  `mk` rebuilds the full current manifest
around a value of this entry, so write events carry the exact payload.
Returns the final entry, the queued bundle artifacts, the events of
this item, and the touch flag. -/
def processEntry (env : ExecEnv) (mode : String) (retries : Nat)
    (bp : BackupProviderModel) (del : String → Nat → Option String)
    (lookupRepo : String → Option RepoRecord) (mpath backupRoot : String)
    (mk : manifest.RepoExecutionEntry → manifest.ExecutionManifestV1)
    (entry : manifest.RepoExecutionEntry) :
    manifest.RepoExecutionEntry × List manifest.BundleArtifact × List Event × Bool :=
  if shouldSkipEntry mode entry then (entry, [], [], false)
  else
    match lookupRepo entry.fullName with
    | none =>
      let e1 := { entry with
                  status := manifest.StatusDeleteFailed
                  error := "repo missing from plan"
                  attempts := entry.attempts + 1
                  lastAttemptAt := env.nowTs }
      (e1, [], [persistTouched mpath env.nowTs (mk e1)], true)
    | some repo =>
      let s1 := backupStage env bp repo mpath backupRoot mk entry
      if s1.2.2.2 then (s1.1, [], s1.2.1, s1.2.2.1)
      else
        let s2 := snapshotStage env bp repo mpath backupRoot mk s1.1
        if s2.2.2.2 then (s2.1, [], s1.2.1 ++ s2.2.1, s1.2.2.1 || s2.2.2.1)
        else
          if mode = ModeBackup then
            let s3 := bundleStage env bp repo mpath backupRoot mk s2.1
            if s3.2.2.2 then
              (s3.1, [], s1.2.1 ++ s2.2.1 ++ s3.2.1, s1.2.2.1 || s2.2.2.1 || s3.2.2.1)
            else
              (s3.1, [{ fullName := repo.fullName, bundlePath := s3.1.bundlePath,
                        updatedAt := repo.updatedAt }],
               s1.2.1 ++ s2.2.1 ++ s3.2.1, s1.2.2.1 || s2.2.2.1 || s3.2.2.1)
          else
            let d := deleteStage env retries del repo mpath mk s2.1
            (d.1, [], s1.2.1 ++ s2.2.1 ++ d.2, true)

/-- Loop of `Execute` over the manifest entries, in manifest order.
`done` holds the already-processed prefix, `upd` the current in-memory
`updatedAt`; the base manifest supplies every other field for write
payloads. -/
def runEntries (env : ExecEnv) (mode : String) (retries : Nat)
    (bp : BackupProviderModel) (del : String → Nat → Option String)
    (lookupRepo : String → Option RepoRecord) (mpath backupRoot : String)
    (base : manifest.ExecutionManifestV1) :
    List manifest.RepoExecutionEntry → List manifest.RepoExecutionEntry → String →
    List manifest.RepoExecutionEntry × String × List manifest.BundleArtifact × List Event
  | done, [], upd => (done, upd, [], [])
  | done, e :: rest, upd =>
    let mk := fun x => { base with repoExecutions := done ++ x :: rest, updatedAt := upd }
    let r := processEntry env mode retries bp del lookupRepo mpath backupRoot mk e
    let upd1 := if r.2.2.2 then env.nowTs else upd
    let r2 :=
      runEntries env mode retries bp del lookupRepo mpath backupRoot base (done ++ [r.1]) rest upd1
    (r2.1, r2.2.1, r.2.1 ++ r2.2.2.1, r.2.2.1 ++ r2.2.2.2)

/-- Archive-publish phase of `Execute` (backup mode, after the loop):
defaults the archive target, runs the size filter and persists its
outcome, then ensures the archive repository and publishes the eligible
bundles in one batch.  Returns the possibly-updated config, the final
manifest, the commit id, the events, and a fatal error when the phase
aborts the invocation (nil archive services, ensure-repo failure). -/
def archivePhase (env : ExecEnv) (fs : FSModel) (cfg : Config) (plan : DeletionPlanV1)
    (backupRoot mpath : String) (m : manifest.ExecutionManifestV1)
    (bundles : List manifest.BundleArtifact) :
    Config × manifest.ExecutionManifestV1 × String × List Event × Option String :=
  if cfg.mode = ModeBackup then
    if ¬ cfg.noArchive ∧ bundles ≠ [] then
      let cfg2 := { cfg with
        archiveRepo := if cfg.archiveRepo = "" then plan.actor ++ "/gh-manager-archive"
          else cfg.archiveRepo
        archiveBranch := if cfg.archiveBranch = "" then "main" else cfg.archiveBranch
        archiveVisibility := if cfg.archiveVisibility = "" then "private"
          else cfg.archiveVisibility }
      let fr := filterArchiveBundlesBySize fs backupRoot bundles m archiveMaxBundleSizeBytes
      let eligible := fr.1
      let sizeSkipped := fr.2.1
      let m2 := manifest.Touch fr.2.2.1 env.nowTs
      let evsW := fr.2.2.2 ++ [Event.writeManifest mpath (manifest.writeView m2)] ++
        (if sizeSkipped ≠ [] then
          [Event.print ("Archive size-skip: " ++ toString sizeSkipped.length ++
            " bundle(s) moved to " ++ joinPath backupRoot "archive-skipped-size" ++ "\n")]
         else [])
      if eligible = [] then
        (cfg2, m2, "",
         evsW ++ [Event.print "No bundles eligible for archive publish after size checks.\n"],
         none)
      else
        match env.repoMgr, env.archive with
        | some mgr, some pub =>
          let ensEv := Event.callEnsureRepo cfg2.archiveRepo cfg2.archiveVisibility
          match mgr cfg2.archiveRepo cfg2.archiveVisibility with
          | some err =>
            let m3 := markArchiveFailure m2 err eligible
            (cfg2, m3, "",
             evsW ++ [ensEv, Event.writeManifest mpath (manifest.writeView m3)],
             some err)
          | none =>
            let pubEv := Event.callPublish cfg2.archiveRepo cfg2.archiveBranch
            match pub cfg2.archiveRepo cfg2.archiveBranch backupRoot eligible plan.fingerprint with
            | .error perr =>
              let m3 := manifest.Touch (markArchiveFailure m2 perr eligible) env.nowTs
              (cfg2, m3, "",
               evsW ++ [ensEv, pubEv,
                 Event.writeManifest mpath (manifest.writeView m3),
                 Event.print ("Archive publish failed: " ++ perr ++ "\n")],
               none)
            | .ok commit =>
              let m3 := manifest.Touch (markArchiveSuccess m2 commit eligible) env.nowTs
              (cfg2, m3, commit,
               evsW ++ [ensEv, pubEv, Event.writeManifest mpath (manifest.writeView m3)],
               none)
        | _, _ =>
          (cfg2, m2, "", evsW, some "archive enabled but archive services are nil")
    else
      let m1 := markArchiveSkipped m
      (cfg, m1, "", [Event.writeManifest mpath (manifest.writeView m1)], none)
  else (cfg, m, "", [], none)

/-- Entry point `Executor.Execute`: defaulting, validation, root
resolution, confirmation gate, dry-run branch, manifest
load-or-create, the per-item loop, the archive phase, and the final
counter recomputation and result. -/
def Execute (env : ExecEnv) (fs : FSModel) (cfg0 : Config) (plan : DeletionPlanV1) :
    Except String Result × List Event :=
  let cfg := { cfg0 with
    maxDeleteRetries := if cfg0.maxDeleteRetries ≤ 0 then 3 else cfg0.maxDeleteRetries
    mode := if cfg0.mode = "" then ModeDelete else cfg0.mode }
  if cfg.mode ≠ ModeDelete ∧ cfg.mode ≠ ModeBackup then
    (.error ("unsupported mode: " ++ cfg.mode), [])
  else
    match env.backup with
    | none => (.error "executor backup service is nil", [])
    | some bp =>
      if cfg.mode = ModeDelete ∧ env.gh.isNone then
        (.error "executor GH client is nil", [])
      else
        let backupRoot := resolveBackupRoot fs cfg.backupDir cfg.resume
        let rc := requireConfirmation env
        match rc.1 with
        | .error e => (.error e, rc.2)
        | .ok _ =>
          if cfg.dryRun then
            let rs := simulate cfg plan backupRoot
            (.ok rs.1, rc.2 ++ rs.2)
          else
            let evMk := Event.mkdirAll backupRoot
            let mpath := manifest.Path backupRoot
            match loadOrCreateManifest fs cfg plan backupRoot mpath env.nowTs with
            | .error e => (.error e, rc.2 ++ [evMk])
            | .ok ml =>
              let m0 := ml.1
              let del := env.gh.getD (fun _ _ => some "executor GH client is nil")
              let lookupRepo := lookupLast plan.repos
              let retries := cfg.maxDeleteRetries.toNat
              let rr :=
                runEntries env cfg.mode retries bp del lookupRepo mpath backupRoot m0
                  [] m0.repoExecutions m0.updatedAt
              let m1 := { m0 with repoExecutions := rr.1, updatedAt := rr.2.1 }
              let ra := archivePhase env fs cfg plan backupRoot mpath m1 rr.2.2.1
              match ra.2.2.2.2 with
              | some e => (.error e, rc.2 ++ [evMk] ++ ml.2 ++ rr.2.2.2 ++ ra.2.2.2.1)
              | none =>
                let m3 := manifest.RecomputeCounters ra.2.1
                let evW := Event.writeManifest mpath (manifest.writeView m3)
                (.ok { manifestPath := mpath
                       backupRoot := backupRoot
                       deleted := m3.deletedCount
                       failed := m3.failedCount
                       archiveFailed := countArchiveFailures m3
                       archiveSkippedSize := countArchiveSkippedSize m3
                       total := m3.repoExecutions.length
                       archiveCommit := ra.2.2.1
                       archiveRepo := ra.1.archiveRepo
                       archiveBranch := ra.1.archiveBranch
                       archiveSkippedRepos := listArchiveSkippedSizeRepos m3 },
                 rc.2 ++ [evMk] ++ ml.2 ++ rr.2.2.2 ++ ra.2.2.2.1 ++ [evW])

end executor

/-! ## Claim-support definitions -/

/-- Status edit of the manifest entry at one index, leaving every other
entry alone (an arbitrary manual or programmatic entry-status
mutation). -/
def editStatus (i : Nat) (st : String) :
    List manifest.RepoExecutionEntry → List manifest.RepoExecutionEntry
  | [] => []
  | e :: rest =>
    match i with
    | 0 => { e with status := st } :: rest
    | i' + 1 => e :: editStatus i' st rest

/-- Sequence of entry-status edits applied left to right. -/
def applyEdits (edits : List (Nat × String)) (m : manifest.ExecutionManifestV1) :
    manifest.ExecutionManifestV1 :=
  edits.foldl (fun acc e => { acc with repoExecutions := editStatus e.1 e.2 acc.repoExecutions }) m

/-- Fixture repo record `alice/r1`. -/
def fixRepo1 : RepoRecord :=
  { owner := "alice", name := "r1", fullName := "alice/r1", description := ""
    isPrivate := false, isFork := false, isArchived := false, updatedAt := "" }

/-- Fixture repo record `alice/r2`. -/
def fixRepo2 : RepoRecord :=
  { owner := "alice", name := "r2", fullName := "alice/r2", description := ""
    isPrivate := false, isFork := false, isArchived := false, updatedAt := "" }

/-- Fixture plan over the two fixture repos, with an opaque fingerprint
as the executor tests of the source use. -/
def fixPlan : DeletionPlanV1 :=
  { planfile.New "alice" "github.com" "test" [fixRepo1, fixRepo2] "2026-02-25T10:00:00Z" with
    fingerprint := "fp-1" }

/-- Fixture fresh delete-mode manifest for the fixture plan. -/
def fixManifest : manifest.ExecutionManifestV1 :=
  manifest.New "plan.json" "/root/backup" fixPlan "2026-02-25T10:00:00Z"
    { mode := "delete", archiveRepo := "", archiveBranch := "" }

/-- Plan produced by a successful `planfile.Sign`: fingerprint stored,
signature the hex HMAC of the fingerprint. -/
def signedPlan (p : DeletionPlanV1) (secret : List Nat) : DeletionPlanV1 :=
  { p with
    fingerprint := planfile.ComputeFingerprint p
    signature := bytesToHex (hmacSha256 secret (strBytes (planfile.ComputeFingerprint p))) }

/-- Signing secret fixture (32 bytes, as `EnsureSecret` produces). -/
def c8Secret : List Nat := strBytes "01234567890123456789012345678901"

/-- A different signing secret. -/
def c8OtherSecret : List Nat := strBytes "abcdefghijklmnopqrstuvwxyz012345"

/-- Unsigned plan fixture for the signing claims. -/
def c8Base : DeletionPlanV1 :=
  planfile.New "alice" "github.com" "test" [fixRepo1, fixRepo2] "2026-02-25T10:00:00Z"

/-- The signed plan fixture. -/
def c8Signed : DeletionPlanV1 := signedPlan c8Base c8Secret

/-- The signed plan fixture with its repos field mutated after signing:
the two records swapped in place. -/
def c8Swapped : DeletionPlanV1 := { c8Signed with repos := [fixRepo2, fixRepo1] }

/-- The signed plan fixture with its actor field mutated after
signing. -/
def c8Tampered : DeletionPlanV1 := { c8Signed with actor := "bob" }

/-- First manifest entry with a given full name, the entry `findEntry`
addresses. -/
def entryNamed (n : String) (l : List manifest.RepoExecutionEntry) :
    Option manifest.RepoExecutionEntry :=
  l.find? (fun e => e.fullName == n)

/-- Size-filter eligibility of one candidate bundle: its file stats
successfully and the size does not exceed the ceiling. -/
def sizeEligible (fs : executor.FSModel) (maxBytes : Int)
    (b : manifest.BundleArtifact) : Bool :=
  match fs.statSize b.bundlePath with
  | .ok s => !(maxBytes < s)
  | .error _ => false

/-- Size-filter skip outcome of one candidate bundle: oversized and the
move into the skip folder succeeds. -/
def sizeSkippedPred (fs : executor.FSModel) (maxBytes : Int) (skippedDir : String)
    (b : manifest.BundleArtifact) : Bool :=
  match fs.statSize b.bundlePath with
  | .ok s =>
    maxBytes < s &&
      (fs.moveErr b.bundlePath (joinPath skippedDir (pathBase b.bundlePath))).isNone
  | .error _ => false

/-- Two candidate bundles for the size-filter witness: one tiny, one
just over the ceiling. -/
def c7Bundles : List manifest.BundleArtifact :=
  [{ fullName := "alice/r1", bundlePath := "/b/r1.bundle", updatedAt := "" },
   { fullName := "alice/r2", bundlePath := "/b/r2.bundle", updatedAt := "" }]

/-- Filesystem oracle for the size-filter witness: the first bundle
stats at 2 bytes, every other path just over the ceiling, moves
succeed. -/
def c7FS : executor.FSModel :=
  { manifestExists := false
    manifestRead := .error "none"
    statSize := fun p => if p = "/b/r1.bundle" then .ok 2
      else .ok (executor.archiveMaxBundleSizeBytes + 1)
    moveErr := fun _ _ => none
    homeScanRoot := ""
    defaultRoot := "/root/backup" }

/-- Deleter oracle for the retry witness: fails on the first attempt,
succeeds afterwards. -/
def c6Del : String → Nat → Option String :=
  fun _ a => if a = 1 then some "transient delete error" else none

/-- Backup provider whose operations always succeed. -/
def c6BP : executor.BackupProviderModel :=
  { mirrorBackup := fun _ _ => .ok "/b"
    createBrowsableSnapshot := fun _ _ => .ok "/s"
    createBundle := fun _ _ => .ok "/bd" }

/-- Executor environment for the retry witness. -/
def c6Env : executor.ExecEnv :=
  { gh := some c6Del, repoMgr := none, backup := some c6BP, archive := none
    nowTs := "2026-02-25T10:01:00Z", confirmText := "ACCEPT\n", confirmReadErr := none }

/-- Entry that has already completed backup and snapshot, about to reach
the delete stage. -/
def c6Entry : manifest.RepoExecutionEntry :=
  { fullName := "alice/r1", status := "backup_ok", backupPath := "/b"
    browsablePath := "/s", bundlePath := "", archiveCommit := ""
    archiveStatus := "skipped", error := "", attempts := 1, lastAttemptAt := "t" }

/-- Manifest reconstruction function handed to the per-item pipeline in
the retry witness. -/
def c6Mk : manifest.RepoExecutionEntry → manifest.ExecutionManifestV1 :=
  fun e => { fixManifest with repoExecutions := [e] }

/-- Dry-run delete-mode configuration fixture. -/
def c5Cfg : executor.Config :=
  { planPath := "plan.json", resume := true, backupDir := "/root/backup"
    maxDeleteRetries := 3, mode := "delete", dryRun := true
    archiveRepo := "", archiveBranch := "", archiveVisibility := "", noArchive := false }


/-- Filesystem fixture that already holds a manifest at the resolved
backup root. -/
def c10FS : executor.FSModel := { c7FS with manifestExists := true }

/-- Non-resume, non-dry-run configuration fixture. -/
def c10Cfg : executor.Config := { c5Cfg with dryRun := false, resume := false }


/-- Backup-mode environment whose archive repo manager is absent (nil)
while everything else succeeds. -/
def c4Env : executor.ExecEnv :=
  { gh := none, repoMgr := none, backup := some c6BP
    archive := some (fun _ _ _ _ _ => .ok "deadbeef")
    nowTs := "2026-02-25T10:02:00Z", confirmText := "ACCEPT\n", confirmReadErr := none }

/-- Filesystem oracle where every bundle stats small and no manifest
exists yet. -/
def c4FS : executor.FSModel :=
  { manifestExists := false, manifestRead := .error "none"
    statSize := fun _ => .ok 2, moveErr := fun _ _ => none
    homeScanRoot := "", defaultRoot := "/root/backup" }

/-- Backup-mode configuration fixture. -/
def c4Cfg : executor.Config :=
  { planPath := "plan.json", resume := true, backupDir := "/root/backup"
    maxDeleteRetries := 3, mode := "backup", dryRun := false
    archiveRepo := "alice/gh-manager-archive", archiveBranch := "", archiveVisibility := ""
    noArchive := false }
/-- The same environment with the backup provider also absent. -/
def c4EnvNB : executor.ExecEnv := { c4Env with backup := none }


/-- Payload of the last manifest write in a trace: the manifest state
left on disk when the run ends. -/
def lastManifestPayload (evs : List executor.Event) : Option manifest.ExecutionManifestV1 :=
  (evs.filterMap (fun ev => match ev with
    | executor.Event.writeManifest _ m => some m
    | _ => none)).getLast?

/-- Entry of a finished backup-mode pass: backup, snapshot and bundle
all done, archive still pending. -/
def c1DoneEntry : manifest.RepoExecutionEntry :=
  { fullName := "alice/r1", status := "backup_ok", backupPath := "/b"
    browsablePath := "/s", bundlePath := "/bd", archiveCommit := ""
    archiveStatus := "pending", error := "", attempts := 1, lastAttemptAt := "t" }

/-- Backup-mode manifest already on disk holding only the finished
entry. -/
def c1Manifest : manifest.ExecutionManifestV1 :=
  { fixManifest with mode := "backup", repoExecutions := [c1DoneEntry] }

/-- Filesystem oracle holding that manifest at the resolved root. -/
def c1FS : executor.FSModel :=
  { c4FS with manifestExists := true, manifestRead := .ok c1Manifest }

/-- Delete-mode entry already deleted in an earlier pass. -/
def c1DelEntry : manifest.RepoExecutionEntry :=
  { fullName := "alice/r1", status := "deleted", backupPath := "/b"
    browsablePath := "/s", bundlePath := "", archiveCommit := ""
    archiveStatus := "skipped", error := "", attempts := 1, lastAttemptAt := "t" }

/-- Second-pass entry still pending for the other repo. -/
def c1PendingEntry : manifest.RepoExecutionEntry :=
  { fullName := "alice/r2", status := "pending", backupPath := ""
    browsablePath := "", bundlePath := "", archiveCommit := ""
    archiveStatus := "pending", error := "", attempts := 0, lastAttemptAt := "" }

/-- Delete-mode manifest of a resumed run: `alice/r1` already deleted,
`alice/r2` still pending. -/
def c1DelManifest : manifest.ExecutionManifestV1 :=
  { fixManifest with repoExecutions := [c1DelEntry, c1PendingEntry] }

/-- Filesystem oracle holding the delete-mode manifest. -/
def c1DelFS : executor.FSModel :=
  { c4FS with manifestExists := true, manifestRead := .ok c1DelManifest }

/-- Resumed non-dry-run delete-mode configuration. -/
def c1DelCfg : executor.Config := { c5Cfg with dryRun := false }

/-- Archive repo manager oracle that always fails with `ensure boom`. -/
def c2EnsMgr : String → String → Option String := fun _ _ => some "ensure boom"

/-- Archive repo manager oracle that always succeeds. -/
def c2OkMgr : String → String → Option String := fun _ _ => none

/-- Archive publisher oracle that always fails with `publish boom`. -/
def c2FailPub : String → String → String → List manifest.BundleArtifact → String →
    Except String String := fun _ _ _ _ _ => .error "publish boom"

/-- Backup-mode environment whose archive ensure-repo step fails. -/
def c2EnsEnv : executor.ExecEnv := { c4Env with repoMgr := some c2EnsMgr }

/-- Backup-mode environment whose archive publish step fails. -/
def c2PubEnv : executor.ExecEnv :=
  { c4Env with repoMgr := some c2OkMgr, archive := some c2FailPub }

/-- Two candidate bundles for the archive-phase statements. -/
def c2Bundles : List manifest.BundleArtifact :=
  [{ fullName := "alice/r1", bundlePath := "/bd", updatedAt := "" },
   { fullName := "alice/r2", bundlePath := "/bd", updatedAt := "" }]

/-- Backup-mode manifest with both entries backed up and bundled. -/
def c2M : manifest.ExecutionManifestV1 :=
  { fixManifest with
    mode := "backup"
    repoExecutions := [c1DoneEntry, { c1DoneEntry with fullName := "alice/r2" }] }

/-- Backup-mode configuration with explicit archive repo, branch and
visibility. -/
def c2Cfg : executor.Config :=
  { c4Cfg with archiveBranch := "main", archiveVisibility := "private" }

/-- Hex fingerprint of the unsigned base plan, evaluated once. -/
def c8Fp : String := "bcecdf285760435fd3948191ad523cb0d699161ea76d35af37a854c1ff762914"

/-- Hex fingerprint of the tampered plan. -/
def c8FpTampered : String := "e4f9987c9f37fa051d6dacd7d0f39108ab1f4496c4486cf59b9f4249e91af7d9"

/-- Hex HMAC signature of the base fingerprint under the signing
secret. -/
def c8Sig : String := "c389ccb048e53272213524b4e71b7ed982edaca6c7d0c38719bd17c1889bcf3f"

/-- Hex HMAC signature of the base fingerprint under the other
secret. -/
def c8Sig2 : String := "b7cce86959be67b702b2dc8eeca39c3c3ef369c059e67dac5af514c2d220bdc8"

/-- Events the size filter emits for one candidate bundle. -/
def bundleFilterEvents (fs : executor.FSModel) (skippedDir : String) (maxBytes : Int)
    (b : manifest.BundleArtifact) : List executor.Event :=
  match fs.statSize b.bundlePath with
  | .error _ => [.statFile b.bundlePath]
  | .ok s =>
    if maxBytes < s then
      let newPath := joinPath skippedDir (pathBase b.bundlePath)
      match fs.moveErr b.bundlePath newPath with
      | some _ => [.statFile b.bundlePath, .moveFile b.bundlePath newPath]
      | none => [.statFile b.bundlePath, .moveFile b.bundlePath newPath,
          .print ("Archive skip (size): " ++ b.fullName ++ " (" ++ toString s ++ " bytes)\n")]
    else [.statFile b.bundlePath]

/-- Effect of the size filter on the manifest entry of one candidate
bundle. -/
def bundleEntryEffect (fs : executor.FSModel) (skippedDir : String) (maxBytes : Int)
    (b : manifest.BundleArtifact) :
    manifest.RepoExecutionEntry → manifest.RepoExecutionEntry :=
  match fs.statSize b.bundlePath with
  | .error err => fun e =>
    { e with archiveStatus := "archive_failed", error := "bundle stat failed: " ++ err }
  | .ok s =>
    if maxBytes < s then
      let newPath := joinPath skippedDir (pathBase b.bundlePath)
      match fs.moveErr b.bundlePath newPath with
      | some mv => fun e =>
        { e with archiveStatus := "archive_failed"
                 error := "failed moving oversized bundle: " ++ mv }
      | none => fun e =>
        { e with bundlePath := newPath
                 archiveStatus := "archive_skipped_size_limit"
                 error := "bundle size " ++ toString s ++ " exceeds archive limit " ++
                   toString maxBytes ++ " bytes" }
    else fun e => e

/-! ## Order lemmas for the byte-wise string comparison -/

theorem charListLt_irrefl : ∀ l : List Char, charListLt l l = false
  | [] => rfl
  | c :: cs => by
    simp only [charListLt, Nat.lt_irrefl, if_false]
    exact charListLt_irrefl cs

theorem char_eq_of_toNat_eq {x y : Char} (h : x.toNat = y.toNat) : x = y := by
  have hv : x.val = y.val := by
    unfold Char.toNat at h
    exact UInt32.toNat.inj h
  exact Char.ext hv

theorem string_eq_of_data_eq {a b : String} (h : a.data = b.data) : a = b := by
  cases a; cases b; exact congrArg String.mk h

theorem charListLt_trans : ∀ a b c : List Char,
    charListLt a b = true → charListLt b c = true → charListLt a c = true
  | [], [], _, h1, _ => by simp [charListLt] at h1
  | [], _ :: _, [], _, h2 => by simp [charListLt] at h2
  | [], _ :: _, _ :: _, _, _ => by simp [charListLt]
  | _ :: _, [], _, h1, _ => by simp [charListLt] at h1
  | _ :: _, _ :: _, [], _, h2 => by simp [charListLt] at h2
  | x :: xs, y :: ys, z :: zs, h1, h2 => by
    simp only [charListLt] at h1 h2 ⊢
    by_cases hxy : x.toNat < y.toNat <;> by_cases hyz : y.toNat < z.toNat <;>
      by_cases hxz : x.toNat < z.toNat <;>
      simp only [hxy, hyz, hxz, if_true, if_false] at h1 h2 ⊢
    all_goals try omega
    all_goals split_ifs at h1 h2 ⊢ with h h' h''
    all_goals try omega
    all_goals exact charListLt_trans xs ys zs h1 h2

theorem charListLt_eq_of_not : ∀ a b : List Char,
    charListLt a b = false → charListLt b a = false → a = b
  | [], [], _, _ => rfl
  | [], _ :: _, h1, _ => by simp [charListLt] at h1
  | _ :: _, [], _, h2 => by simp [charListLt] at h2
  | x :: xs, y :: ys, h1, h2 => by
    simp only [charListLt] at h1 h2
    by_cases hxy : x.toNat < y.toNat
    · simp [hxy] at h1
    · by_cases hyx : y.toNat < x.toNat
      · simp [hyx, hxy] at h2
      · simp only [hxy, hyx, if_false] at h1 h2
        have hx : x = y := char_eq_of_toNat_eq (by omega)
        rw [hx, charListLt_eq_of_not xs ys h1 h2]

theorem strLt_asymm (a b : String) (h : strLt a b = true) : strLt b a = false := by
  by_contra hne
  have hba : strLt b a = true := by
    cases hq : strLt b a
    · exact absurd hq hne
    · rfl
  have : strLt a a = true := by
    simpa [strLt] using charListLt_trans a.data b.data a.data h hba
  simp [strLt, charListLt_irrefl] at this

theorem strLe_total (a b : String) : strLe a b = true ∨ strLe b a = true := by
  cases h : strLt b a
  · left; simp [strLe, h]
  · right; simp [strLe, strLt_asymm b a h]

theorem strLe_trans (a b c : String) (h1 : strLe a b = true) (h2 : strLe b c = true) :
    strLe a c = true := by
  simp only [strLe, Bool.not_eq_true'] at h1 h2 ⊢
  by_contra hne
  have hca : strLt c a = true := by
    cases hq : strLt c a
    · exact absurd (by simp [hq]) hne
    · rfl
  cases hab : strLt a b
  · cases hba : strLt b a
    · have hd : a.data = b.data := charListLt_eq_of_not a.data b.data hab (by simpa [strLt] using hba)
      have hab' : a = b := string_eq_of_data_eq hd
      rw [hab'] at hca
      simp [hca] at h2
    · simp [strLt] at h1
      simp [strLt] at hba
      simp [hba] at h1
  · have : strLt c b = true := by
      simpa [strLt] using charListLt_trans c.data a.data b.data (by simpa [strLt] using hca) (by simpa [strLt] using hab)
    simp [this] at h2

/-! ## Insertion sort lemmas -/

theorem insertLe_perm (le : α → α → Bool) (a : α) :
    ∀ l : List α, (insertLe le a l).Perm (a :: l)
  | [] => List.Perm.refl _
  | x :: xs => by
    simp only [insertLe]
    split
    · exact List.Perm.refl _
    · exact ((insertLe_perm le a xs).cons x).trans (List.Perm.swap a x xs)

theorem sortLe_perm (le : α → α → Bool) : ∀ l : List α, (sortLe le l).Perm l
  | [] => List.Perm.refl _
  | x :: xs => (insertLe_perm le x (sortLe le xs)).trans ((sortLe_perm le xs).cons x)

theorem mem_insertLe (le : α → α → Bool) (a : α) (l : List α) (y : α)
    (hy : y ∈ insertLe le a l) : y = a ∨ y ∈ l := by
  have := (insertLe_perm le a l).mem_iff.mp hy
  simpa using this

theorem insertLe_pairwise (le : α → α → Bool)
    (total : ∀ x y, le x y = true ∨ le y x = true)
    (htrans : ∀ x y z, le x y = true → le y z = true → le x z = true)
    (a : α) :
    ∀ l : List α, l.Pairwise (fun x y => le x y = true) →
      (insertLe le a l).Pairwise (fun x y => le x y = true)
  | [], _ => by simp [insertLe]
  | x :: xs, h => by
    rw [List.pairwise_cons] at h
    obtain ⟨hx, hxs⟩ := h
    simp only [insertLe]
    split
    · rename_i hax
      refine List.pairwise_cons.mpr ⟨?_, List.pairwise_cons.mpr ⟨hx, hxs⟩⟩
      intro y hy
      rcases List.mem_cons.mp hy with rfl | hy
      · exact hax
      · exact htrans a x y hax (hx y hy)
    · rename_i hax
      have hxa : le x a = true := by
        rcases total a x with h1 | h1
        · exact absurd h1 hax
        · exact h1
      refine List.pairwise_cons.mpr ⟨?_, insertLe_pairwise le total htrans a xs hxs⟩
      intro y hy
      rcases mem_insertLe le a xs y hy with rfl | hy
      · exact hxa
      · exact hx y hy

theorem sortLe_pairwise (le : α → α → Bool)
    (total : ∀ x y, le x y = true ∨ le y x = true)
    (htrans : ∀ x y z, le x y = true → le y z = true → le x z = true) :
    ∀ l : List α, (sortLe le l).Pairwise (fun x y => le x y = true)
  | [] => List.Pairwise.nil
  | x :: xs => insertLe_pairwise le total htrans x (sortLe le xs) (sortLe_pairwise le total htrans xs)

theorem repoLe_total (a b : RepoRecord) :
    planfile.repoLe a b = true ∨ planfile.repoLe b a = true :=
  strLe_total a.fullName b.fullName

theorem repoLe_trans (a b c : RepoRecord) (h1 : planfile.repoLe a b = true)
    (h2 : planfile.repoLe b c = true) : planfile.repoLe a c = true :=
  strLe_trans a.fullName b.fullName c.fullName h1 h2

theorem sortRepos_perm (rs : List RepoRecord) : (planfile.sortRepos rs).Perm rs :=
  sortLe_perm planfile.repoLe rs

theorem sortRepos_sorted (rs : List RepoRecord) :
    (planfile.sortRepos rs).Pairwise (fun a b => strLe a.fullName b.fullName = true) :=
  sortLe_pairwise planfile.repoLe repoLe_total repoLe_trans rs

/-! ## Claim C3 -/

/-- C3 counterexample: `planfile.New` does not de-duplicate by full
name.  Feeding the same target record twice yields a plan that keeps
both copies, so the full-name list of the created plan is not
duplicate-free, refuting the claim that the target records of the
created plan are de-duplicated by full name. -/
theorem C3_counterexample :
    ((planfile.New "alice" "github.com" "test" [fixRepo1, fixRepo1]
        "2026-02-25T10:00:00Z").repos.map (fun r => r.fullName)) =
      ["alice/r1", "alice/r1"] ∧
    ¬ ((planfile.New "alice" "github.com" "test" [fixRepo1, fixRepo1]
        "2026-02-25T10:00:00Z").repos.map (fun r => r.fullName)).Nodup := by
  refine ⟨by decide, by decide⟩

/-- C3 (amended): for every input list of target records, `planfile.New`
returns a plan whose target records are sorted by full name and are a
permutation of the input (duplicates are preserved, there is no
de-duplication), and whose count field equals the number of target
records in the plan. -/
theorem C3_amended (actor host toolVersion : String) (repos : List RepoRecord)
    (now : String) :
    ((planfile.New actor host toolVersion repos now).repos.Pairwise
      (fun a b => strLe a.fullName b.fullName = true)) ∧
    ((planfile.New actor host toolVersion repos now).repos.Perm repos) ∧
    ((planfile.New actor host toolVersion repos now).count =
      Int.ofNat (planfile.New actor host toolVersion repos now).repos.length) :=
  ⟨sortRepos_sorted repos, sortRepos_perm repos, rfl⟩

/-! ## Claim C9 -/

theorem editStatus_comm (s s' : String) :
    ∀ (i j : Nat) (l : List manifest.RepoExecutionEntry), i ≠ j →
      editStatus i s (editStatus j s' l) = editStatus j s' (editStatus i s l)
  | i, j, [], _ => by
    cases i <;> cases j <;> simp [editStatus]
  | 0, 0, _ :: _, hij => absurd rfl hij
  | 0, j + 1, e :: rest, _ => by simp [editStatus]
  | i + 1, 0, e :: rest, _ => by simp [editStatus]
  | i + 1, j + 1, e :: rest, hij => by
    simp only [editStatus, List.cons.injEq, true_and]
    exact editStatus_comm s s' i j rest (by omega)

/-- C9: after every manifest write (`manifest.Write` recomputes before
serializing), for any prior sequence of entry-status edits the stored
deleted counter equals the recount of entries with status `deleted` and
the stored failed counter equals the recount of entries with status
`backup_failed` or `delete_failed`; `RecomputeCounters` is idempotent;
and a sequence of edits touching pairwise-distinct entries yields the
same manifest in any order, so the counters cannot desynchronize from
entry state. -/
theorem C9_counters (m : manifest.ExecutionManifestV1) (edits : List (Nat × String)) :
    ((manifest.writeView (applyEdits edits m)).deletedCount =
      (applyEdits edits m).repoExecutions.countP
        (fun r => r.status == manifest.StatusDeleted)) ∧
    ((manifest.writeView (applyEdits edits m)).failedCount =
      (applyEdits edits m).repoExecutions.countP
        (fun r => r.status == manifest.StatusBackupFailed ||
                  r.status == manifest.StatusDeleteFailed)) ∧
    (manifest.RecomputeCounters (manifest.RecomputeCounters m) =
      manifest.RecomputeCounters m) ∧
    (∀ edits2 : List (Nat × String), edits.Perm edits2 →
      (edits.map Prod.fst).Nodup → applyEdits edits m = applyEdits edits2 m) := by
  refine ⟨rfl, rfl, rfl, ?_⟩
  intro edits2 hperm hnodup
  unfold applyEdits
  refine hperm.foldl_eq' ?_ m
  intro x hx y hy z
  by_cases hxy : x = y
  · rw [hxy]
  · have hne : x.1 ≠ y.1 := by
      intro h1
      have hinj := List.inj_on_of_nodup_map hnodup
      exact hxy (hinj hx hy h1)
    simp only
    rw [editStatus_comm y.2 x.2 y.1 x.1 z.repoExecutions (by omega)]

/-! ## Claim C7 -/

theorem filterGo_eligible (fs : executor.FSModel) (dir : String) (maxBytes : Int) :
    ∀ (bundles : List manifest.BundleArtifact) (m : manifest.ExecutionManifestV1),
      (executor.filterBundlesGo fs dir maxBytes bundles m).1 =
        bundles.filter (sizeEligible fs maxBytes)
  | [], _ => rfl
  | b :: rest, m => by
    cases hstat : fs.statSize b.bundlePath with
    | error e =>
      simp [executor.filterBundlesGo, hstat, List.filter_cons, sizeEligible,
        filterGo_eligible fs dir maxBytes rest]
    | ok s =>
      by_cases hs : maxBytes < s
      · cases hmv : fs.moveErr b.bundlePath (joinPath dir (pathBase b.bundlePath)) <;>
          simp [executor.filterBundlesGo, hstat, hs, hmv, List.filter_cons, sizeEligible,
            filterGo_eligible fs dir maxBytes rest]
      · simp [executor.filterBundlesGo, hstat, hs, List.filter_cons, sizeEligible,
          filterGo_eligible fs dir maxBytes rest]

theorem filterGo_skipped (fs : executor.FSModel) (dir : String) (maxBytes : Int) :
    ∀ (bundles : List manifest.BundleArtifact) (m : manifest.ExecutionManifestV1),
      (executor.filterBundlesGo fs dir maxBytes bundles m).2.1 =
        (bundles.filter (sizeSkippedPred fs maxBytes dir)).map (fun b => b.fullName)
  | [], _ => rfl
  | b :: rest, m => by
    cases hstat : fs.statSize b.bundlePath with
    | error e =>
      simp [executor.filterBundlesGo, hstat, List.filter_cons, sizeSkippedPred,
        filterGo_skipped fs dir maxBytes rest]
    | ok s =>
      by_cases hs : maxBytes < s
      · cases hmv : fs.moveErr b.bundlePath (joinPath dir (pathBase b.bundlePath)) <;>
          simp [executor.filterBundlesGo, hstat, hs, hmv, List.filter_cons, sizeSkippedPred,
            filterGo_skipped fs dir maxBytes rest]
      · simp [executor.filterBundlesGo, hstat, hs, List.filter_cons, sizeSkippedPred,
          filterGo_skipped fs dir maxBytes rest]

theorem filterGo_events (fs : executor.FSModel) (dir : String) (maxBytes : Int) :
    ∀ (bundles : List manifest.BundleArtifact) (m : manifest.ExecutionManifestV1),
      (executor.filterBundlesGo fs dir maxBytes bundles m).2.2.2 =
        bundles.flatMap (bundleFilterEvents fs dir maxBytes)
  | [], _ => rfl
  | b :: rest, m => by
    cases hstat : fs.statSize b.bundlePath with
    | error e =>
      simp [executor.filterBundlesGo, hstat, List.flatMap_cons, bundleFilterEvents,
        filterGo_events fs dir maxBytes rest]
    | ok s =>
      by_cases hs : maxBytes < s
      · cases hmv : fs.moveErr b.bundlePath (joinPath dir (pathBase b.bundlePath)) <;>
          simp [executor.filterBundlesGo, hstat, hs, hmv, List.flatMap_cons, bundleFilterEvents,
            filterGo_events fs dir maxBytes rest]
      · simp [executor.filterBundlesGo, hstat, hs, List.flatMap_cons, bundleFilterEvents,
          filterGo_events fs dir maxBytes rest]

theorem entryNamed_updateEntryNamed_ne
    (f : manifest.RepoExecutionEntry → manifest.RepoExecutionEntry)
    (hf : ∀ e, (f e).fullName = e.fullName) (n name : String) (hne : name ≠ n) :
    ∀ l, entryNamed n (executor.updateEntryNamed f name l) = entryNamed n l
  | [] => rfl
  | e :: rest => by
    simp only [executor.updateEntryNamed, entryNamed]
    by_cases he : e.fullName = name
    · simp only [he, if_true, List.find?]
      have h1 : ((f e).fullName == n) = false := by
        simp [hf e, he, hne]
      have h3 : (name == n) = false := by simp [hne]
      rw [h1, h3]
    · simp only [he, if_false, List.find?]
      cases hp : (e.fullName == n)
      · exact entryNamed_updateEntryNamed_ne f hf n name hne rest
      · rfl

theorem entryNamed_updateEntryNamed_eq
    (f : manifest.RepoExecutionEntry → manifest.RepoExecutionEntry)
    (hf : ∀ e, (f e).fullName = e.fullName) (n : String) :
    ∀ l, entryNamed n (executor.updateEntryNamed f n l) = (entryNamed n l).map f
  | [] => rfl
  | e :: rest => by
    simp only [executor.updateEntryNamed, entryNamed]
    by_cases he : e.fullName = n
    · simp only [he, if_true, List.find?]
      have h1 : ((f e).fullName == n) = true := by simp [hf e, he]
      have h3 : (n == n) = true := by simp
      rw [h1, h3]
      rfl
    · simp only [he, if_false, List.find?]
      cases hp : (e.fullName == n)
      · exact entryNamed_updateEntryNamed_eq f hf n rest
      · simp_all

theorem filterGo_entry_ne (fs : executor.FSModel) (dir : String) (maxBytes : Int)
    (n : String) :
    ∀ (bundles : List manifest.BundleArtifact) (m : manifest.ExecutionManifestV1),
      (∀ b ∈ bundles, b.fullName ≠ n) →
      entryNamed n (executor.filterBundlesGo fs dir maxBytes bundles m).2.2.1.repoExecutions =
        entryNamed n m.repoExecutions
  | [], _, _ => rfl
  | b :: rest, m, hb => by
    have hbn : b.fullName ≠ n := hb b (List.mem_cons_self b rest)
    have hrest : ∀ x ∈ rest, x.fullName ≠ n := fun x hx => hb x (List.mem_cons_of_mem b hx)
    cases hstat : fs.statSize b.bundlePath with
    | error e =>
      simp only [executor.filterBundlesGo, hstat]
      rw [filterGo_entry_ne fs dir maxBytes n rest _ hrest]
      apply entryNamed_updateEntryNamed_ne
      · intro e1
        rfl
      · exact hbn
    | ok s =>
      by_cases hs : maxBytes < s
      · cases hmv : fs.moveErr b.bundlePath (joinPath dir (pathBase b.bundlePath)) with
        | none =>
          simp only [executor.filterBundlesGo, hstat, hs, if_true, hmv]
          rw [filterGo_entry_ne fs dir maxBytes n rest _ hrest]
          apply entryNamed_updateEntryNamed_ne
          · intro e1
            rfl
          · exact hbn
        | some mv =>
          simp only [executor.filterBundlesGo, hstat, hs, if_true, hmv]
          rw [filterGo_entry_ne fs dir maxBytes n rest _ hrest]
          apply entryNamed_updateEntryNamed_ne
          · intro e1
            rfl
          · exact hbn
      · simp only [executor.filterBundlesGo, hstat, hs, if_false]
        exact filterGo_entry_ne fs dir maxBytes n rest m hrest

theorem filterGo_entry (fs : executor.FSModel) (dir : String) (maxBytes : Int) :
    ∀ (bundles : List manifest.BundleArtifact) (m : manifest.ExecutionManifestV1)
      (b : manifest.BundleArtifact), b ∈ bundles →
      (bundles.map (fun x => x.fullName)).Nodup →
      entryNamed b.fullName
          (executor.filterBundlesGo fs dir maxBytes bundles m).2.2.1.repoExecutions =
        (entryNamed b.fullName m.repoExecutions).map (bundleEntryEffect fs dir maxBytes b)
  | [], _, b, hb, _ => absurd hb (List.not_mem_nil b)
  | x :: rest, m, b, hb, hnd => by
    rw [List.map_cons, List.nodup_cons] at hnd
    obtain ⟨hx, hrestnd⟩ := hnd
    rcases List.mem_cons.mp hb with rfl | hbr
    · have hrest : ∀ y ∈ rest, y.fullName ≠ b.fullName := by
        intro y hy h
        exact hx (h ▸ List.mem_map_of_mem (fun z => z.fullName) hy)
      cases hstat : fs.statSize b.bundlePath with
      | error e =>
        simp only [executor.filterBundlesGo, hstat, bundleEntryEffect]
        rw [filterGo_entry_ne fs dir maxBytes b.fullName rest _ hrest]
        apply entryNamed_updateEntryNamed_eq
        intro e1
        rfl
      | ok s =>
        by_cases hs : maxBytes < s
        · cases hmv : fs.moveErr b.bundlePath (joinPath dir (pathBase b.bundlePath)) with
          | none =>
            simp only [executor.filterBundlesGo, hstat, hs, if_true, hmv, bundleEntryEffect]
            rw [filterGo_entry_ne fs dir maxBytes b.fullName rest _ hrest]
            apply entryNamed_updateEntryNamed_eq
            intro e1
            rfl
          | some mv =>
            simp only [executor.filterBundlesGo, hstat, hs, if_true, hmv, bundleEntryEffect]
            rw [filterGo_entry_ne fs dir maxBytes b.fullName rest _ hrest]
            apply entryNamed_updateEntryNamed_eq
            intro e1
            rfl
        · simp only [executor.filterBundlesGo, hstat, hs, if_false, bundleEntryEffect]
          rw [filterGo_entry_ne fs dir maxBytes b.fullName rest m hrest]
          simp
    · have hxb : x.fullName ≠ b.fullName := by
        intro h
        exact hx (h ▸ List.mem_map_of_mem (fun z => z.fullName) hbr)
      cases hstat : fs.statSize x.bundlePath with
      | error e =>
        simp only [executor.filterBundlesGo, hstat]
        rw [filterGo_entry fs dir maxBytes rest _ b hbr hrestnd]
        refine congrArg (Option.map (bundleEntryEffect fs dir maxBytes b)) ?_
        apply entryNamed_updateEntryNamed_ne
        · intro e1
          rfl
        · exact hxb
      | ok s =>
        by_cases hs : maxBytes < s
        · cases hmv : fs.moveErr x.bundlePath (joinPath dir (pathBase x.bundlePath)) with
          | none =>
            simp only [executor.filterBundlesGo, hstat, hs, if_true, hmv]
            rw [filterGo_entry fs dir maxBytes rest _ b hbr hrestnd]
            refine congrArg (Option.map (bundleEntryEffect fs dir maxBytes b)) ?_
            apply entryNamed_updateEntryNamed_ne
            · intro e1
              rfl
            · exact hxb
          | some mv =>
            simp only [executor.filterBundlesGo, hstat, hs, if_true, hmv]
            rw [filterGo_entry fs dir maxBytes rest _ b hbr hrestnd]
            refine congrArg (Option.map (bundleEntryEffect fs dir maxBytes b)) ?_
            apply entryNamed_updateEntryNamed_ne
            · intro e1
              rfl
            · exact hxb
        · simp only [executor.filterBundlesGo, hstat, hs, if_false]
          exact filterGo_entry fs dir maxBytes rest m b hbr hrestnd

/-- C7: for every candidate bundle presented to the archive size filter
(bundle names and bundle paths pairwise distinct): a bundle whose file
stats at or under the 100 MiB ceiling is included in the eligible set,
its file is never moved, and its manifest entry is unchanged; an
oversized bundle whose move succeeds is moved (its file leaves the old
path) into the archive-skipped-size folder under the backup root,
excluded from the eligible set, listed as skipped, and its manifest
entry gets the new bundle path, archive status
`archive_skipped_size_limit` and a human-readable reason; a stat
failure marks the entry `archive_failed` with an explanatory error and
excludes the bundle; and the eligible set always equals the per-bundle
size test applied across the whole input, so no per-item failure
aborts the batch. -/
theorem C7_size_filter (fs : executor.FSModel) (backupRoot : String)
    (bundles : List manifest.BundleArtifact) (m : manifest.ExecutionManifestV1)
    (b : manifest.BundleArtifact)
    (elig : List manifest.BundleArtifact) (skipped : List String)
    (m2 : manifest.ExecutionManifestV1) (evs : List executor.Event)
    (hb : b ∈ bundles)
    (hnames : (bundles.map (fun x => x.fullName)).Nodup)
    (hpaths : (bundles.map (fun x => x.bundlePath)).Nodup)
    (hout : executor.filterArchiveBundlesBySize fs backupRoot bundles m
      executor.archiveMaxBundleSizeBytes = (elig, skipped, m2, evs)) :
    (∀ s, fs.statSize b.bundlePath = .ok s →
      s ≤ executor.archiveMaxBundleSizeBytes →
      b ∈ elig ∧
      (∀ dst, executor.Event.moveFile b.bundlePath dst ∉ evs) ∧
      entryNamed b.fullName m2.repoExecutions = entryNamed b.fullName m.repoExecutions) ∧
    (∀ s, fs.statSize b.bundlePath = .ok s →
      executor.archiveMaxBundleSizeBytes < s →
      fs.moveErr b.bundlePath (joinPath (joinPath backupRoot "archive-skipped-size")
        (pathBase b.bundlePath)) = none →
      b ∉ elig ∧ b.fullName ∈ skipped ∧
      executor.Event.moveFile b.bundlePath
        (joinPath (joinPath backupRoot "archive-skipped-size") (pathBase b.bundlePath)) ∈ evs ∧
      entryNamed b.fullName m2.repoExecutions =
        (entryNamed b.fullName m.repoExecutions).map (fun e =>
          { e with
            bundlePath := joinPath (joinPath backupRoot "archive-skipped-size")
              (pathBase b.bundlePath)
            archiveStatus := "archive_skipped_size_limit"
            error := "bundle size " ++ toString s ++ " exceeds archive limit " ++
              toString executor.archiveMaxBundleSizeBytes ++ " bytes" })) ∧
    (∀ err, fs.statSize b.bundlePath = .error err →
      b ∉ elig ∧
      entryNamed b.fullName m2.repoExecutions =
        (entryNamed b.fullName m.repoExecutions).map (fun e =>
          { e with archiveStatus := "archive_failed"
                   error := "bundle stat failed: " ++ err })) ∧
    elig = bundles.filter (sizeEligible fs executor.archiveMaxBundleSizeBytes) := by
  simp only [executor.filterArchiveBundlesBySize, Prod.mk.injEq] at hout
  obtain ⟨helig, hskip, hm2, hevs⟩ := hout
  have hinjPath := List.inj_on_of_nodup_map hpaths
  refine ⟨?_, ?_, ?_, ?_⟩
  · intro s hstat hle
    have hnotlt : ¬ executor.archiveMaxBundleSizeBytes < s := not_lt.mpr hle
    refine ⟨?_, ?_, ?_⟩
    · rw [← helig, filterGo_eligible]
      refine List.mem_filter.mpr ⟨hb, ?_⟩
      simp [sizeEligible, hstat, hnotlt]
    · intro dst hmem
      rw [← hevs] at hmem
      rcases List.mem_cons.mp hmem with hcon | hmem
      · exact absurd hcon (by simp)
      · rw [filterGo_events] at hmem
        obtain ⟨x, hxmem, hxev⟩ := List.mem_flatMap.mp hmem
        have hxpath : x.bundlePath = b.bundlePath := by
          by_cases hxb : x = b
          · rw [hxb]
          · cases hx2 : fs.statSize x.bundlePath with
            | error e2 => simp [bundleFilterEvents, hx2] at hxev
            | ok s2 =>
              by_cases hs2 : executor.archiveMaxBundleSizeBytes < s2
              · cases hmv2 : fs.moveErr x.bundlePath (joinPath (joinPath backupRoot
                  "archive-skipped-size") (pathBase x.bundlePath)) with
                | none =>
                  simp only [bundleFilterEvents, hx2, hs2, if_true, hmv2,
                    List.mem_cons, List.mem_singleton] at hxev
                  rcases hxev with h | h | h | h
                  · exact absurd h (by simp)
                  · exact (executor.Event.moveFile.injEq _ _ _ _).mp h |>.1.symm ▸ rfl
                  · exact absurd h (by simp)
                  · exact absurd h (by simp at h)
                | some mv2 =>
                  simp only [bundleFilterEvents, hx2, hs2, if_true, hmv2,
                    List.mem_cons, List.mem_singleton] at hxev
                  rcases hxev with h | h | h
                  · exact absurd h (by simp)
                  · exact (executor.Event.moveFile.injEq _ _ _ _).mp h |>.1.symm ▸ rfl
                  · exact absurd h (by simp at h)
              · simp [bundleFilterEvents, hx2, hs2] at hxev
        have : x = b := hinjPath hxmem hb hxpath
        rw [this] at hxev
        simp [bundleFilterEvents, hstat, hnotlt] at hxev
    · rw [← hm2, filterGo_entry fs _ _ bundles m b hb hnames]
      simp [bundleEntryEffect, hstat, hnotlt]
  · intro s hstat hgt hmv
    refine ⟨?_, ?_, ?_, ?_⟩
    · rw [← helig, filterGo_eligible]
      intro hmem
      have := (List.mem_filter.mp hmem).2
      simp [sizeEligible, hstat, hgt] at this
    · rw [← hskip, filterGo_skipped]
      refine List.mem_map.mpr ⟨b, List.mem_filter.mpr ⟨hb, ?_⟩, rfl⟩
      simp [sizeSkippedPred, hstat, hgt, hmv]
    · rw [← hevs]
      refine List.mem_cons.mpr (Or.inr ?_)
      rw [filterGo_events]
      refine List.mem_flatMap.mpr ⟨b, hb, ?_⟩
      simp [bundleFilterEvents, hstat, hgt, hmv]
    · rw [← hm2, filterGo_entry fs _ _ bundles m b hb hnames]
      simp [bundleEntryEffect, hstat, hgt, hmv]
  · intro err hstat
    refine ⟨?_, ?_⟩
    · rw [← helig, filterGo_eligible]
      intro hmem
      have := (List.mem_filter.mp hmem).2
      simp [sizeEligible, hstat] at this
    · rw [← hm2, filterGo_entry fs _ _ bundles m b hb hnames]
      simp [bundleEntryEffect, hstat]
  · rw [← helig, filterGo_eligible]

/-- C7 witness: the size filter run on two concrete bundles, one at 2
bytes and one just over the ceiling, against the fixture backup-mode
manifest, with the hypotheses discharged by computation. -/
theorem C7_size_filter_witness :
    ((manifest.BundleArtifact.mk "alice/r1" "/b/r1.bundle" "") ∈
      (executor.filterArchiveBundlesBySize c7FS "/root/backup" c7Bundles fixManifest
        executor.archiveMaxBundleSizeBytes).1) ∧
    ("alice/r2" ∈
      (executor.filterArchiveBundlesBySize c7FS "/root/backup" c7Bundles fixManifest
        executor.archiveMaxBundleSizeBytes).2.1) := by
  have h1 := C7_size_filter c7FS "/root/backup" c7Bundles fixManifest
    (manifest.BundleArtifact.mk "alice/r1" "/b/r1.bundle" "")
    (executor.filterArchiveBundlesBySize c7FS "/root/backup" c7Bundles fixManifest
      executor.archiveMaxBundleSizeBytes).1
    (executor.filterArchiveBundlesBySize c7FS "/root/backup" c7Bundles fixManifest
      executor.archiveMaxBundleSizeBytes).2.1
    (executor.filterArchiveBundlesBySize c7FS "/root/backup" c7Bundles fixManifest
      executor.archiveMaxBundleSizeBytes).2.2.1
    (executor.filterArchiveBundlesBySize c7FS "/root/backup" c7Bundles fixManifest
      executor.archiveMaxBundleSizeBytes).2.2.2
    (by decide) (by decide) (by decide) rfl
  have h2 := C7_size_filter c7FS "/root/backup" c7Bundles fixManifest
    (manifest.BundleArtifact.mk "alice/r2" "/b/r2.bundle" "")
    (executor.filterArchiveBundlesBySize c7FS "/root/backup" c7Bundles fixManifest
      executor.archiveMaxBundleSizeBytes).1
    (executor.filterArchiveBundlesBySize c7FS "/root/backup" c7Bundles fixManifest
      executor.archiveMaxBundleSizeBytes).2.1
    (executor.filterArchiveBundlesBySize c7FS "/root/backup" c7Bundles fixManifest
      executor.archiveMaxBundleSizeBytes).2.2.1
    (executor.filterArchiveBundlesBySize c7FS "/root/backup" c7Bundles fixManifest
      executor.archiveMaxBundleSizeBytes).2.2.2
    (by decide) (by decide) (by decide) rfl
  refine ⟨(h1.1 2 rfl (by decide)).1, ?_⟩
  exact ((h2.2.1 (executor.archiveMaxBundleSizeBytes + 1) rfl (by decide) rfl).2.1)

/-! ## Claim C6 -/

theorem deleteAttempts_success (del : String → Nat → Option String) (name : String) :
    ∀ (k start j : Nat), start ≤ j → j < start + k →
      (∀ i, start ≤ i → i < j → (del name i).isSome) →
      del name j = none →
      executor.deleteAttempts del name start k =
        (none, (List.range' start (j + 1 - start)).map (executor.Event.callDelete name))
  | 0, start, j, hsj, hjk, _, _ => by omega
  | k + 1, start, j, hsj, hjk, hf, hsucc => by
    rcases Nat.eq_or_lt_of_le hsj with rfl | hlt
    · simp only [executor.deleteAttempts, hsucc]
      have : start + 1 - start = 1 := by omega
      rw [this]
      rfl
    · have hst : (del name start).isSome := hf start (le_refl start) hlt
      obtain ⟨e, he⟩ := Option.isSome_iff_exists.mp hst
      have hk : 1 ≤ k := by omega
      obtain ⟨k', rfl⟩ : ∃ k', k = k' + 1 := ⟨k - 1, by omega⟩
      have ih := deleteAttempts_success del name (k' + 1) (start + 1) j (by omega) (by omega)
        (fun i h1 h2 => hf i (by omega) h2) hsucc
      simp only [executor.deleteAttempts, he, ih]
      have hr : j + 1 - start = (j + 1 - (start + 1)) + 1 := by omega
      rw [hr, List.range'_succ]
      rfl

theorem deleteAttempts_allFail (del : String → Nat → Option String) (name : String)
    (errAt : Nat → String) :
    ∀ (k start : Nat), 1 ≤ k →
      (∀ i, start ≤ i → i < start + k → del name i = some (errAt i)) →
      executor.deleteAttempts del name start k =
        (some (errAt (start + k - 1)),
         (List.range' start k).map (executor.Event.callDelete name))
  | 0, _, hk, _ => by omega
  | 1, start, _, hf => by
    have h1 : del name start = some (errAt start) := hf start (le_refl start) (by omega)
    simp only [executor.deleteAttempts, h1]
    rfl
  | k + 2, start, _, hf => by
    have h1 : del name start = some (errAt start) := hf start (le_refl start) (by omega)
    have ih := deleteAttempts_allFail del name errAt (k + 1) (start + 1) (by omega)
      (fun i ha hb => hf i (by omega) (by omega))
    simp only [executor.deleteAttempts, h1, ih]
    have hr : start + 1 + (k + 1) - 1 = start + (k + 2) - 1 := by omega
    rw [hr, List.range'_succ]
    rfl

/-! ## Claim C6 theorems -/

theorem filter_isDeleteFor_callDelete (name : String) (l : List Nat) :
    List.filter (executor.Event.isDeleteFor name ∘ executor.Event.callDelete name) l = l := by
  induction l with
  | nil => rfl
  | cons a t ih => simp [executor.Event.isDeleteFor, Function.comp, ih]

theorem filter_isWrite_callDelete (name : String) (l : List Nat) :
    List.filter (executor.Event.isWrite ∘ executor.Event.callDelete name) l = [] := by
  induction l with
  | nil => rfl
  | cons a t ih => simp [executor.Event.isWrite, Function.comp, ih]

/-- C6: in delete mode, for every entry that reaches the delete stage
(already backed up and snapshotted, present in the plan), the delete
operation is retried up to the configured maximum, stopping at the
first success; whatever the number of internal retries, the entry's
attempt counter is incremented exactly once and the manifest is
persisted exactly once for the stage, with status `deleted` on success
(after the j-th attempt, j at most the maximum) or `delete_failed`
with the last error after exhausting all attempts. -/
theorem C6_delete_retry (env : executor.ExecEnv) (retries : Nat)
    (bp : executor.BackupProviderModel) (del : String → Nat → Option String)
    (lookupRepo : String → Option RepoRecord) (mpath backupRoot : String)
    (mk : manifest.RepoExecutionEntry → manifest.ExecutionManifestV1)
    (entry : manifest.RepoExecutionEntry) (repo : RepoRecord)
    (e' : manifest.RepoExecutionEntry) (bs : List manifest.BundleArtifact)
    (evs : List executor.Event) (touched : Bool)
    (hstatus : entry.status = manifest.StatusBackupOK)
    (hbp : entry.backupPath ≠ "")
    (hbr : entry.browsablePath ≠ "")
    (hrepo : lookupRepo entry.fullName = some repo)
    (hout : executor.processEntry env executor.ModeDelete retries bp del lookupRepo
      mpath backupRoot mk entry = (e', bs, evs, touched)) :
    (∀ j, 1 ≤ j → j ≤ retries →
      (∀ i, 1 ≤ i → i < j → (del repo.fullName i).isSome) →
      del repo.fullName j = none →
      e' = { entry with
             attempts := entry.attempts + 1
             lastAttemptAt := env.nowTs
             status := manifest.StatusDeleted
             error := "" } ∧
      (evs.filter (executor.Event.isDeleteFor repo.fullName)).length = j ∧
      (evs.filter executor.Event.isWrite).length = 1) ∧
    (∀ errAt : Nat → String, 1 ≤ retries →
      (∀ i, 1 ≤ i → i ≤ retries → del repo.fullName i = some (errAt i)) →
      e' = { entry with
             attempts := entry.attempts + 1
             lastAttemptAt := env.nowTs
             status := manifest.StatusDeleteFailed
             error := errAt retries } ∧
      (evs.filter (executor.Event.isDeleteFor repo.fullName)).length = retries ∧
      (evs.filter executor.Event.isWrite).length = 1) := by
  have hskip : executor.shouldSkipEntry "delete" entry = false := by
    simp [executor.shouldSkipEntry, executor.ModeDelete, hstatus, manifest.StatusBackupOK,
      manifest.StatusDeleted]
  simp [executor.processEntry, executor.backupStage, executor.snapshotStage,
    executor.deleteStage, hskip, hrepo, hbp, hbr, hstatus, manifest.StatusBackupOK,
    manifest.StatusPending, manifest.StatusBackupFailed, executor.ModeDelete,
    executor.ModeBackup] at hout
  refine ⟨?_, ?_⟩
  · intro j hj1 hjr hf hsucc
    have hda := deleteAttempts_success del repo.fullName retries 1 j hj1 (by omega)
      (fun i h1 h2 => hf i h1 h2) hsucc
    rw [hda] at hout
    simp only [Prod.mk.injEq] at hout
    obtain ⟨he, hb2, hev, ht⟩ := hout
    refine ⟨?_, ?_, ?_⟩
    · exact he.symm
    · rw [← hev]
      simp [executor.Event.isDeleteFor, executor.Event.isWrite, executor.persistTouched,
        List.filter_append, List.filter_map, filter_isDeleteFor_callDelete,
        filter_isWrite_callDelete, List.length_range']
    · rw [← hev]
      simp [executor.Event.isDeleteFor, executor.Event.isWrite, executor.persistTouched,
        List.filter_append, List.filter_map, filter_isDeleteFor_callDelete,
        filter_isWrite_callDelete]
  · intro errAt hr1 hall
    have hda := deleteAttempts_allFail del repo.fullName errAt retries 1 hr1
      (fun i h1 h2 => hall i h1 (by omega))
    rw [hda] at hout
    simp only [Prod.mk.injEq] at hout
    obtain ⟨he, hb2, hev, ht⟩ := hout
    have hidx : 1 + retries - 1 = retries := by omega
    rw [hidx] at he
    refine ⟨?_, ?_, ?_⟩
    · exact he.symm
    · rw [← hev]
      simp [executor.Event.isDeleteFor, executor.Event.isWrite, executor.persistTouched,
        List.filter_append, List.filter_map, filter_isDeleteFor_callDelete,
        filter_isWrite_callDelete, List.length_range']
    · rw [← hev]
      simp [executor.Event.isDeleteFor, executor.Event.isWrite, executor.persistTouched,
        List.filter_append, List.filter_map, filter_isDeleteFor_callDelete,
        filter_isWrite_callDelete]

/-- C6 witness: the retry statement applied to a concrete entry whose
delete fails once and then succeeds, with three configured attempts:
two deleter calls, one attempt increment, one manifest write. -/
theorem C6_delete_retry_witness :
    (executor.processEntry c6Env executor.ModeDelete 3 c6BP c6Del
      (executor.lookupLast fixPlan.repos) "/m" "/root/backup" c6Mk c6Entry).1.status =
        manifest.StatusDeleted ∧
    (executor.processEntry c6Env executor.ModeDelete 3 c6BP c6Del
      (executor.lookupLast fixPlan.repos) "/m" "/root/backup" c6Mk c6Entry).1.attempts = 2 ∧
    ((executor.processEntry c6Env executor.ModeDelete 3 c6BP c6Del
      (executor.lookupLast fixPlan.repos) "/m" "/root/backup" c6Mk c6Entry).2.2.1.filter
        (executor.Event.isDeleteFor "alice/r1")).length = 2 ∧
    ((executor.processEntry c6Env executor.ModeDelete 3 c6BP c6Del
      (executor.lookupLast fixPlan.repos) "/m" "/root/backup" c6Mk c6Entry).2.2.1.filter
        executor.Event.isWrite).length = 1 := by
  have h := C6_delete_retry c6Env 3 c6BP c6Del (executor.lookupLast fixPlan.repos)
    "/m" "/root/backup" c6Mk c6Entry fixRepo1
    (executor.processEntry c6Env executor.ModeDelete 3 c6BP c6Del
      (executor.lookupLast fixPlan.repos) "/m" "/root/backup" c6Mk c6Entry).1
    (executor.processEntry c6Env executor.ModeDelete 3 c6BP c6Del
      (executor.lookupLast fixPlan.repos) "/m" "/root/backup" c6Mk c6Entry).2.1
    (executor.processEntry c6Env executor.ModeDelete 3 c6BP c6Del
      (executor.lookupLast fixPlan.repos) "/m" "/root/backup" c6Mk c6Entry).2.2.1
    (executor.processEntry c6Env executor.ModeDelete 3 c6BP c6Del
      (executor.lookupLast fixPlan.repos) "/m" "/root/backup" c6Mk c6Entry).2.2.2
    rfl (by decide) (by decide) (by decide) rfl
  have h2 := h.1 2 (by decide) (by decide)
    (fun i h1 hlt => by
      have hi : i = 1 := by omega
      rw [hi]
      decide)
    rfl
  refine ⟨?_, ?_, h2.2.1, h2.2.2⟩
  · rw [h2.1]
  · rw [h2.1]
    decide

/-! ## Claim C5 -/

theorem simulateRepoLines_length (cfg : executor.Config) (root : String) (repo : RepoRecord)
    (hmode : cfg.mode = executor.ModeDelete ∨ cfg.mode = executor.ModeBackup) :
    (executor.simulateRepoLines cfg root repo).length = 3 := by
  rcases hmode with h | h <;>
    simp [executor.simulateRepoLines, h, executor.ModeDelete, executor.ModeBackup]

theorem simulateRepoLines_print (cfg : executor.Config) (root : String) (repo : RepoRecord) :
    ∀ e ∈ executor.simulateRepoLines cfg root repo, executor.Event.isPrint e = true := by
  intro e he
  unfold executor.simulateRepoLines at he
  split_ifs at he <;> simp [List.mem_append, List.mem_cons] at he <;>
    rcases he with rfl | rfl | rfl | rfl <;> rfl

theorem simLines_total_length (cfg : executor.Config) (root : String)
    (hmode : cfg.mode = executor.ModeDelete ∨ cfg.mode = executor.ModeBackup) :
    ∀ rs : List RepoRecord,
      (rs.flatMap (executor.simulateRepoLines cfg root)).length = 3 * rs.length
  | [] => by simp
  | r :: rs => by
    simp [List.flatMap_cons, simulateRepoLines_length cfg root r hmode,
      simLines_total_length cfg root hmode rs]
    omega

theorem simulate_events_print (cfg : executor.Config) (plan : DeletionPlanV1) (root : String) :
    ∀ e ∈ (executor.simulate cfg plan root).2, executor.Event.isPrint e = true := by
  intro e he
  unfold executor.simulate at he
  simp only [List.mem_append] at he
  rcases he with he | he
  · obtain ⟨r, _, hr⟩ := List.mem_flatMap.mp he
    exact simulateRepoLines_print cfg root r e hr
  · split_ifs at he <;> simp at he <;> subst he <;> rfl

theorem simulate_events_length (cfg : executor.Config) (plan : DeletionPlanV1) (root : String)
    (hmode : cfg.mode = executor.ModeDelete ∨ cfg.mode = executor.ModeBackup) :
    (executor.simulate cfg plan root).2.length = 3 * plan.repos.length +
      (if cfg.mode = executor.ModeBackup ∧ cfg.noArchive = false then 1 else 0) := by
  unfold executor.simulate
  simp only [List.length_append, simLines_total_length cfg root hmode plan.repos]
  by_cases hb : cfg.mode = executor.ModeBackup ∧ cfg.noArchive = false
  · simp [hb, Bool.not_eq_true, hb.1, hb.2]
  · have : ¬ (cfg.mode = executor.ModeBackup ∧ ¬ cfg.noArchive = true) := by
      simpa [Bool.not_eq_true] using hb
    simp [hb, this]

/-- C5: for every plan and configuration with dry-run enabled (valid
mode, required collaborators wired, confirmation phrase accepted),
Execute performs only prints: it emits the confirmation prompt plus one
simulated line per item per pipeline stage applicable to the mode plus
one archive-publish line when archiving applies, makes zero
collaborator calls, creates no directory, writes no manifest and moves
no file, and returns a Result whose total equals the plan's repository
count. -/
theorem C5_dry_run (env : executor.ExecEnv) (fs : executor.FSModel)
    (cfg0 : executor.Config) (plan : DeletionPlanV1)
    (hdry : cfg0.dryRun = true)
    (hmode : cfg0.mode = executor.ModeDelete ∨ cfg0.mode = executor.ModeBackup)
    (hbp : env.backup.isSome)
    (hgh : cfg0.mode = executor.ModeDelete → env.gh.isSome)
    (hread : env.confirmReadErr = none)
    (hphrase : strToUpper (trimSpace env.confirmText) = "ACCEPT" ∨
               strToUpper (trimSpace env.confirmText) = "CONFIRM") :
    (∃ res, (executor.Execute env fs cfg0 plan).1 = .ok res ∧
      res.total = plan.repos.length ∧ res.manifestPath = "<dry-run>") ∧
    (∀ e ∈ (executor.Execute env fs cfg0 plan).2, executor.Event.isPrint e = true) ∧
    ((executor.Execute env fs cfg0 plan).2.countP executor.Event.isCollabCall = 0) ∧
    ((executor.Execute env fs cfg0 plan).2.countP executor.Event.isFsMutation = 0) ∧
    (executor.Execute env fs cfg0 plan).2.length = 1 + 3 * plan.repos.length +
      (if cfg0.mode = executor.ModeBackup ∧ cfg0.noArchive = false then 1 else 0) := by
  obtain ⟨bp, hbp'⟩ := Option.isSome_iff_exists.mp hbp
  have hne : ¬ (cfg0.mode = "") := by
    rcases hmode with h | h <;> simp [h, executor.ModeDelete, executor.ModeBackup]
  have hconf : executor.requireConfirmation env =
      (.ok (), [executor.Event.print "Type ACCEPT or CONFIRM to continue: "]) := by
    unfold executor.requireConfirmation
    rw [hread]
    rcases hphrase with h | h <;> simp [h]
  have hghx : ¬ (cfg0.mode = executor.ModeDelete ∧ env.gh.isNone = true) := by
    by_cases hd : cfg0.mode = executor.ModeDelete
    · have hS := hgh hd
      simp [hd, Option.isNone_iff_eq_none]
      intro hnn
      rw [hnn] at hS
      simp at hS
    · simp [hd]
  have hmodeok : ¬ (¬ cfg0.mode = executor.ModeDelete ∧ ¬ cfg0.mode = executor.ModeBackup) := by
    rcases hmode with h | h <;> simp [h]
  have hexec : executor.Execute env fs cfg0 plan =
      (.ok (executor.simulate
          { cfg0 with
            maxDeleteRetries := if cfg0.maxDeleteRetries ≤ 0 then 3 else cfg0.maxDeleteRetries
            mode := cfg0.mode
            dryRun := true } plan
          (executor.resolveBackupRoot fs cfg0.backupDir cfg0.resume)).1,
        executor.Event.print "Type ACCEPT or CONFIRM to continue: " ::
          (executor.simulate
            { cfg0 with
              maxDeleteRetries := if cfg0.maxDeleteRetries ≤ 0 then 3 else cfg0.maxDeleteRetries
              mode := cfg0.mode
              dryRun := true } plan
            (executor.resolveBackupRoot fs cfg0.backupDir cfg0.resume)).2) := by
    unfold executor.Execute
    simp only [hne, ite_false, if_false, if_neg hmodeok, hbp', hconf, if_neg hghx, hdry,
      ite_true, if_true, List.singleton_append]
  rw [hexec]
  set cfgD : executor.Config :=
    { cfg0 with
      maxDeleteRetries := if cfg0.maxDeleteRetries ≤ 0 then 3 else cfg0.maxDeleteRetries
      mode := cfg0.mode
      dryRun := true } with hcfgD
  have hmodeD : cfgD.mode = executor.ModeDelete ∨ cfgD.mode = executor.ModeBackup := hmode
  set root := executor.resolveBackupRoot fs cfg0.backupDir cfg0.resume
  refine ⟨⟨(executor.simulate cfgD plan root).1, rfl, ?_, ?_⟩, ?_, ?_, ?_, ?_⟩
  · unfold executor.simulate
    rfl
  · unfold executor.simulate
    rfl
  · intro e he
    rcases List.mem_cons.mp he with rfl | he
    · rfl
    · exact simulate_events_print cfgD plan root e he
  · refine List.countP_eq_zero.mpr ?_
    intro e he
    rcases List.mem_cons.mp he with rfl | he
    · simp [executor.Event.isCollabCall]
    · have := simulate_events_print cfgD plan root e he
      cases e <;> simp_all [executor.Event.isPrint, executor.Event.isCollabCall]
  · refine List.countP_eq_zero.mpr ?_
    intro e he
    rcases List.mem_cons.mp he with rfl | he
    · simp [executor.Event.isFsMutation]
    · have := simulate_events_print cfgD plan root e he
      cases e <;> simp_all [executor.Event.isPrint, executor.Event.isFsMutation]
  · simp only [List.length_cons, simulate_events_length cfgD plan root hmodeD]
    omega


/-- C5 witness: the dry-run statement applied to the two-repo fixture
plan in delete mode: seven events (prompt plus three lines per item),
no collaborator calls, no filesystem mutations. -/
theorem C5_dry_run_witness :
    ((executor.Execute c6Env c7FS c5Cfg fixPlan).2.countP executor.Event.isCollabCall = 0) ∧
    ((executor.Execute c6Env c7FS c5Cfg fixPlan).2.countP executor.Event.isFsMutation = 0) ∧
    (executor.Execute c6Env c7FS c5Cfg fixPlan).2.length = 7 := by
  have h := C5_dry_run c6Env c7FS c5Cfg fixPlan rfl (Or.inl rfl) rfl (fun _ => rfl) rfl
    (Or.inl (by decide))
  refine ⟨h.2.2.1, h.2.2.2.1, ?_⟩
  have h2 := h.2.2.2.2
  rw [show fixPlan.repos.length = 2 by rfl] at h2
  simpa using h2

/-! ## Claim C10 -/

/-- C10: for every plan and non-dry-run configuration with the resume
flag false, when the resolved backup root already contains a manifest
file, Execute aborts with the dedicated error before any manifest write
and before any collaborator call: the existing manifest is neither
reused for a run nor overwritten. -/
theorem C10_no_resume_guard (env : executor.ExecEnv) (fs : executor.FSModel)
    (cfg0 : executor.Config) (plan : DeletionPlanV1)
    (hres : cfg0.resume = false)
    (hdry : cfg0.dryRun = false)
    (hex : fs.manifestExists = true)
    (hmode : cfg0.mode = executor.ModeDelete ∨ cfg0.mode = executor.ModeBackup)
    (hbp : env.backup.isSome)
    (hgh : cfg0.mode = executor.ModeDelete → env.gh.isSome)
    (hread : env.confirmReadErr = none)
    (hphrase : strToUpper (trimSpace env.confirmText) = "ACCEPT" ∨
               strToUpper (trimSpace env.confirmText) = "CONFIRM") :
    (executor.Execute env fs cfg0 plan).1 =
      .error "manifest already exists and --resume=false" ∧
    ((executor.Execute env fs cfg0 plan).2.countP executor.Event.isWrite = 0) ∧
    ((executor.Execute env fs cfg0 plan).2.countP executor.Event.isCollabCall = 0) := by
  obtain ⟨bp, hbp'⟩ := Option.isSome_iff_exists.mp hbp
  have hne : ¬ (cfg0.mode = "") := by
    rcases hmode with h | h <;> simp [h, executor.ModeDelete, executor.ModeBackup]
  have hconf : executor.requireConfirmation env =
      (.ok (), [executor.Event.print "Type ACCEPT or CONFIRM to continue: "]) := by
    unfold executor.requireConfirmation
    rw [hread]
    rcases hphrase with h | h <;> simp [h]
  have hghx : ¬ (cfg0.mode = executor.ModeDelete ∧ env.gh.isNone = true) := by
    by_cases hd : cfg0.mode = executor.ModeDelete
    · have hS := hgh hd
      simp [hd, Option.isNone_iff_eq_none]
      intro hnn
      rw [hnn] at hS
      simp at hS
    · simp [hd]
  have hmodeok : ¬ (¬ cfg0.mode = executor.ModeDelete ∧ ¬ cfg0.mode = executor.ModeBackup) := by
    rcases hmode with h | h <;> simp [h]
  have hload : executor.loadOrCreateManifest fs
      { cfg0 with
        maxDeleteRetries := if cfg0.maxDeleteRetries ≤ 0 then 3 else cfg0.maxDeleteRetries
        mode := cfg0.mode
        dryRun := false
        resume := false } plan
      (executor.resolveBackupRoot fs cfg0.backupDir false)
      (manifest.Path (executor.resolveBackupRoot fs cfg0.backupDir false)) env.nowTs =
      .error "manifest already exists and --resume=false" := by
    unfold executor.loadOrCreateManifest
    simp [hex]
  have hexec : executor.Execute env fs cfg0 plan =
      (.error "manifest already exists and --resume=false",
        [executor.Event.print "Type ACCEPT or CONFIRM to continue: ",
         executor.Event.mkdirAll (executor.resolveBackupRoot fs cfg0.backupDir false)]) := by
    unfold executor.Execute
    simp only [hne, ite_false, if_false, if_neg hmodeok, hbp', hconf, if_neg hghx, hdry, hres,
      Bool.false_eq_true, hload, List.singleton_append]
  rw [hexec]
  refine ⟨rfl, rfl, rfl⟩

/-- C10 witness: the guard statement at a concrete environment whose
filesystem already holds a manifest. -/
theorem C10_no_resume_guard_witness :
    (executor.Execute c6Env c10FS c10Cfg fixPlan).1 =
      .error "manifest already exists and --resume=false" ∧
    ((executor.Execute c6Env c10FS c10Cfg fixPlan).2.countP executor.Event.isWrite = 0) ∧
    ((executor.Execute c6Env c10FS c10Cfg fixPlan).2.countP executor.Event.isCollabCall = 0) :=
  C10_no_resume_guard c6Env c10FS c10Cfg fixPlan rfl rfl rfl (Or.inl rfl) rfl
    (fun _ => rfl) rfl (Or.inl (by decide))

/-! ## Claim C4 -/

/-- C4 counterexample: a backup-mode configuration whose archive repo
manager is a nil collaborator is not rejected immediately: Execute runs
the whole per-item pipeline (six collaborator calls, eight manifest
writes) before failing at the archive phase, refuting the claim that
the configuration is rejected before any side effect. -/
theorem C4_counterexample :
    (executor.Execute c4Env c4FS c4Cfg fixPlan).1 =
      .error "archive enabled but archive services are nil" ∧
    ((executor.Execute c4Env c4FS c4Cfg fixPlan).2.countP executor.Event.isCollabCall) = 6 ∧
    ((executor.Execute c4Env c4FS c4Cfg fixPlan).2.countP executor.Event.isWrite) = 8 := by
  refine ⟨rfl, by decide, by decide⟩

/-- C4 (amended): a missing backup provider is rejected immediately as
a fatal validation error with an empty trace (no directory, no
manifest, no collaborator call); a missing archive repo manager or
archive publisher in backup mode is detected only at the
archive-publish phase, after per-item side effects, as shown at the
concrete fixture where the nil-archive error is returned after
collaborator calls already happened. -/
theorem C4_amended (env : executor.ExecEnv) (fs : executor.FSModel)
    (cfg0 : executor.Config) (plan : DeletionPlanV1)
    (hmode : cfg0.mode = "" ∨ cfg0.mode = executor.ModeDelete ∨
      cfg0.mode = executor.ModeBackup)
    (hb : env.backup = none) :
    executor.Execute env fs cfg0 plan = (.error "executor backup service is nil", []) ∧
    (executor.Execute c4Env c4FS c4Cfg fixPlan).1 =
      .error "archive enabled but archive services are nil" ∧
    0 < ((executor.Execute c4Env c4FS c4Cfg fixPlan).2.countP executor.Event.isCollabCall) := by
  have hmodeok : ¬ (¬ (if cfg0.mode = "" then executor.ModeDelete else cfg0.mode) =
      executor.ModeDelete ∧ ¬ (if cfg0.mode = "" then executor.ModeDelete else cfg0.mode) =
      executor.ModeBackup) := by
    rcases hmode with h | h | h <;>
      simp [h, executor.ModeDelete, executor.ModeBackup]
  refine ⟨?_, rfl, by decide⟩
  unfold executor.Execute
  simp only [hb, if_neg hmodeok]

/-- C4 witness: the amended statement at the concrete fixtures. -/
theorem C4_amended_witness :
    executor.Execute c4EnvNB c4FS c4Cfg fixPlan =
      (.error "executor backup service is nil", []) ∧
    (executor.Execute c4Env c4FS c4Cfg fixPlan).1 =
      .error "archive enabled but archive services are nil" ∧
    0 < ((executor.Execute c4Env c4FS c4Cfg fixPlan).2.countP executor.Event.isCollabCall) :=
  C4_amended c4EnvNB c4FS c4Cfg fixPlan (Or.inr (Or.inr rfl)) rfl

/-! ## Claim C1 -/

theorem deleteAttempts_events_name (del : String → Nat → Option String) (name n : String)
    (hne : name ≠ n) :
    ∀ (k start : Nat),
      ((executor.deleteAttempts del name start k).2.filter (executor.Event.isDeleteFor n)) = []
  | 0, start => rfl
  | k + 1, start => by
    unfold executor.deleteAttempts
    cases hd : del name start with
    | none => simp [executor.Event.isDeleteFor, hne]
    | some e =>
      cases k with
      | zero => simp [executor.Event.isDeleteFor, hne]
      | succ k' =>
        simp [executor.Event.isDeleteFor, hne,
          deleteAttempts_events_name del name n hne (k' + 1) (start + 1)]

theorem backupStage_deleteFor (env : executor.ExecEnv) (bp : executor.BackupProviderModel)
    (repo : RepoRecord) (mpath root : String)
    (mk : manifest.RepoExecutionEntry → manifest.ExecutionManifestV1)
    (e : manifest.RepoExecutionEntry) (n : String) :
    ((executor.backupStage env bp repo mpath root mk e).2.1.filter
      (executor.Event.isDeleteFor n)) = [] := by
  unfold executor.backupStage
  repeat' split
  all_goals simp [executor.Event.isDeleteFor, executor.persistTouched]

theorem snapshotStage_deleteFor (env : executor.ExecEnv) (bp : executor.BackupProviderModel)
    (repo : RepoRecord) (mpath root : String)
    (mk : manifest.RepoExecutionEntry → manifest.ExecutionManifestV1)
    (e : manifest.RepoExecutionEntry) (n : String) :
    ((executor.snapshotStage env bp repo mpath root mk e).2.1.filter
      (executor.Event.isDeleteFor n)) = [] := by
  unfold executor.snapshotStage
  repeat' split
  all_goals simp [executor.Event.isDeleteFor, executor.persistTouched]

theorem bundleStage_deleteFor (env : executor.ExecEnv) (bp : executor.BackupProviderModel)
    (repo : RepoRecord) (mpath root : String)
    (mk : manifest.RepoExecutionEntry → manifest.ExecutionManifestV1)
    (e : manifest.RepoExecutionEntry) (n : String) :
    ((executor.bundleStage env bp repo mpath root mk e).2.1.filter
      (executor.Event.isDeleteFor n)) = [] := by
  unfold executor.bundleStage
  repeat' split
  all_goals simp [executor.Event.isDeleteFor, executor.persistTouched]

theorem deleteStage_deleteFor_ne (env : executor.ExecEnv) (retries : Nat)
    (del : String → Nat → Option String) (repo : RepoRecord) (mpath : String)
    (mk : manifest.RepoExecutionEntry → manifest.ExecutionManifestV1)
    (e : manifest.RepoExecutionEntry) (n : String) (h : repo.fullName ≠ n) :
    ((executor.deleteStage env retries del repo mpath mk e).2.filter
      (executor.Event.isDeleteFor n)) = [] := by
  unfold executor.deleteStage
  cases hd : (executor.deleteAttempts del repo.fullName 1 retries).1 <;>
    simp [executor.Event.isDeleteFor, executor.persistTouched, h, hd,
      List.filter_append, deleteAttempts_events_name del repo.fullName n h retries 1]

theorem processEntry_deleteFor_ne (env : executor.ExecEnv) (mode : String) (retries : Nat)
    (bp : executor.BackupProviderModel) (del : String → Nat → Option String)
    (lookupRepo : String → Option RepoRecord) (mpath root : String)
    (mk : manifest.RepoExecutionEntry → manifest.ExecutionManifestV1)
    (e : manifest.RepoExecutionEntry) (n : String)
    (hlook : ∀ s r, lookupRepo s = some r → r.fullName = s)
    (hn : e.fullName ≠ n) :
    ((executor.processEntry env mode retries bp del lookupRepo mpath root mk e).2.2.1.filter
      (executor.Event.isDeleteFor n)) = [] := by
  unfold executor.processEntry
  by_cases hskip : executor.shouldSkipEntry mode e
  · simp [hskip]
  · simp only [hskip, Bool.false_eq_true, if_false]
    split
    · simp [executor.Event.isDeleteFor, executor.persistTouched]
    · rename_i repo heq
      have hrn : repo.fullName ≠ n := (hlook _ _ heq) ▸ hn
      split
      · simp [backupStage_deleteFor]
      · split
        · simp [List.filter_append, backupStage_deleteFor, snapshotStage_deleteFor]
        · split
          · split
            · simp [List.filter_append, backupStage_deleteFor, snapshotStage_deleteFor,
                bundleStage_deleteFor]
            · simp [List.filter_append, backupStage_deleteFor, snapshotStage_deleteFor,
                bundleStage_deleteFor]
          · simp [List.filter_append, backupStage_deleteFor, snapshotStage_deleteFor,
              deleteStage_deleteFor_ne env retries del repo mpath mk, hrn]

theorem processEntry_skip (env : executor.ExecEnv) (mode : String) (retries : Nat)
    (bp : executor.BackupProviderModel) (del : String → Nat → Option String)
    (lookupRepo : String → Option RepoRecord) (mpath root : String)
    (mk : manifest.RepoExecutionEntry → manifest.ExecutionManifestV1)
    (e : manifest.RepoExecutionEntry)
    (h : executor.shouldSkipEntry mode e = true) :
    executor.processEntry env mode retries bp del lookupRepo mpath root mk e =
      (e, [], [], false) := by
  unfold executor.processEntry
  simp [h]

theorem lookupLast_fullName (repos : List RepoRecord) (s : String) (r : RepoRecord)
    (h : executor.lookupLast repos s = some r) : r.fullName = s := by
  unfold executor.lookupLast at h
  have hmem : r ∈ List.filter (fun r => decide (r.fullName = s)) repos := by
    obtain ⟨hne, heq⟩ := List.mem_getLast?_eq_getLast (Option.mem_def.mpr h)
    exact heq ▸ List.getLast_mem hne
  exact of_decide_eq_true (List.mem_filter.mp hmem).2

theorem requireConfirmation_snd (env : executor.ExecEnv) :
    (executor.requireConfirmation env).2 =
      [executor.Event.print "Type ACCEPT or CONFIRM to continue: "] := by
  unfold executor.requireConfirmation
  cases env.confirmReadErr <;> simp
  split <;> rfl

theorem runEntries_deleteFor (env : executor.ExecEnv) (mode : String) (retries : Nat)
    (bp : executor.BackupProviderModel) (del : String → Nat → Option String)
    (lookupRepo : String → Option RepoRecord) (mpath root : String)
    (base : manifest.ExecutionManifestV1) (n : String)
    (hlook : ∀ s r, lookupRepo s = some r → r.fullName = s) :
    ∀ (todo done : List manifest.RepoExecutionEntry) (upd : String),
      (∀ e ∈ todo, e.fullName = n → executor.shouldSkipEntry mode e = true) →
      ((executor.runEntries env mode retries bp del lookupRepo mpath root base
          done todo upd).2.2.2.filter (executor.Event.isDeleteFor n)) = []
  | [], done, upd, _ => rfl
  | e :: rest, done, upd, h => by
    have hrest := runEntries_deleteFor env mode retries bp del lookupRepo mpath root base n
      hlook rest
    unfold executor.runEntries
    simp only [List.filter_append]
    by_cases he : e.fullName = n
    · rw [processEntry_skip env mode retries bp del lookupRepo mpath root _ e
        (h e (List.mem_cons_self e rest) he)]
      simp only [List.filter_nil, List.nil_append]
      exact hrest _ _ (fun x hx hxn => h x (List.mem_cons_of_mem e hx) hxn)
    · rw [processEntry_deleteFor_ne env mode retries bp del lookupRepo mpath root _ e n
        hlook he]
      simp only [List.nil_append]
      exact hrest _ _ (fun x hx hxn => h x (List.mem_cons_of_mem e hx) hxn)

theorem loadOrCreate_resume_ok (fs : executor.FSModel) (cfg : executor.Config)
    (plan : DeletionPlanV1) (root mpath now : String) (m0 : manifest.ExecutionManifestV1)
    (hex : fs.manifestExists = true) (hres : cfg.resume = true)
    (hread : fs.manifestRead = .ok m0)
    (hfp : m0.planFingerprint = plan.fingerprint)
    (hmm : m0.mode = cfg.mode) :
    executor.loadOrCreateManifest fs cfg plan root mpath now = .ok (m0, []) := by
  unfold executor.loadOrCreateManifest
  simp [hex, hres, hread, hfp, hmm]

theorem archivePhase_delete (env : executor.ExecEnv) (fs : executor.FSModel)
    (cfg : executor.Config) (plan : DeletionPlanV1) (root mpath : String)
    (m : manifest.ExecutionManifestV1) (bundles : List manifest.BundleArtifact)
    (h : ¬ cfg.mode = executor.ModeBackup) :
    executor.archivePhase env fs cfg plan root mpath m bundles = (cfg, m, "", [], none) := by
  unfold executor.archivePhase
  simp [h]

theorem execute_delete_resume_no_delete (env : executor.ExecEnv) (fs : executor.FSModel)
    (cfg0 : executor.Config) (plan : DeletionPlanV1)
    (m0 : manifest.ExecutionManifestV1) (n : String)
    (hmode : cfg0.mode = executor.ModeDelete)
    (hex : fs.manifestExists = true)
    (hres : cfg0.resume = true)
    (hread : fs.manifestRead = .ok m0)
    (hfp : m0.planFingerprint = plan.fingerprint)
    (hm0 : m0.mode = executor.ModeDelete)
    (hdel : ∀ e ∈ m0.repoExecutions, e.fullName = n →
      e.status = manifest.StatusDeleted) :
    ((executor.Execute env fs cfg0 plan).2.filter (executor.Event.isDeleteFor n)) = [] := by
  have hconf2 := requireConfirmation_snd env
  have hskipAll : ∀ e ∈ m0.repoExecutions, e.fullName = n →
      executor.shouldSkipEntry executor.ModeDelete e = true := by
    intro e he hn
    simp [executor.shouldSkipEntry, executor.ModeDelete, hdel e he hn]
  cases hb : env.backup with
  | none =>
    unfold executor.Execute
    simp [hmode, executor.ModeDelete, executor.ModeBackup, hb]
  | some bp =>
    cases hgh : env.gh with
    | none =>
      unfold executor.Execute
      simp [hmode, executor.ModeDelete, executor.ModeBackup, hb, hgh]
    | some d =>
      cases hcf : (executor.requireConfirmation env).1 with
      | error e =>
        unfold executor.Execute
        simp [hmode, executor.ModeDelete, executor.ModeBackup, hb, hgh, hcf, hconf2,
          executor.Event.isDeleteFor]
      | ok u =>
        by_cases hdry : cfg0.dryRun = true
        · unfold executor.Execute
          simp +decide only [hmode, executor.ModeDelete, executor.ModeBackup, hb, hgh, hcf,
            hdry, hconf2, if_true, if_false, ite_true, ite_false, Option.isNone_some,
            Bool.false_eq_true, true_and, and_true, and_false, false_and,
            List.filter_append, List.filter_cons, List.filter_nil, List.singleton_append]
          simp only [executor.Event.isDeleteFor, Bool.false_eq_true, if_false, ite_false]
          rw [List.filter_eq_nil_iff]
          intro e he
          have hp := simulate_events_print _ plan _ e he
          cases e <;> simp_all [executor.Event.isPrint, executor.Event.isDeleteFor]
        · unfold executor.Execute
          simp +decide only [hmode, executor.ModeDelete, executor.ModeBackup, hb, hgh, hcf,
            hdry, hconf2, if_true, if_false, ite_true, ite_false, Option.isNone_some,
            Option.getD_some, Bool.false_eq_true, true_and, and_true, and_false, false_and,
            List.singleton_append]
          split
          · simp [executor.Event.isDeleteFor]
          · rename_i ml heq
            rw [loadOrCreate_resume_ok _ _ _ _ _ _ _ hex ?_ hread hfp ?_] at heq
            · injection heq with heq2
              subst heq2
              simp only []
              rw [archivePhase_delete]
              · simp only [List.filter_append, List.filter_cons, List.filter_nil,
                  executor.Event.isDeleteFor, Bool.false_eq_true, if_false, ite_false,
                  List.nil_append, List.append_nil]
                rw [runEntries_deleteFor env "delete" _ bp d (executor.lookupLast plan.repos)
                  _ _ _ n (fun s r hr => lookupLast_fullName plan.repos s r hr)
                  m0.repoExecutions [] m0.updatedAt hskipAll]
              · simp [executor.ModeBackup]
            · exact hres
            · exact hm0

/-- C1 counterexample: in a resumed backup-mode run whose single
manifest entry is already in the terminal success state (`backup_ok`
with a bundle path), Execute makes no collaborator call for the entry,
yet its manifest entry does not stay unchanged: the archive phase
rewrites its archive status from `pending` to `skipped` in the final
persisted manifest. -/
theorem C1_counterexample :
    ((executor.Execute c4Env c1FS c4Cfg fixPlan).2.filter
        (executor.Event.isItemCallFor "alice/r1")) = [] ∧
    (entryNamed "alice/r1" c1Manifest.repoExecutions).map
        (fun e => e.archiveStatus) = some "pending" ∧
    ((lastManifestPayload (executor.Execute c4Env c1FS c4Cfg fixPlan).2).map
        (fun m => (entryNamed "alice/r1" m.repoExecutions).map
          (fun e => e.archiveStatus))) = some (some "skipped") := by
  exact ⟨rfl, rfl, rfl⟩

/-- C1 (amended): an entry already in the terminal success state for
the requested mode is skipped by the per-item pipeline.
`shouldSkipEntry` holds exactly for these states (`deleted` in delete
mode, `backup_ok` with a non-empty bundle path otherwise); the pipeline
returns a skipped entry unchanged, with no events, so no backup,
snapshot, bundle or delete collaborator call and no manifest write
happen for it; and a resumed delete-mode run over a loaded manifest
whose every entry named `n` is already `deleted` never invokes the
deleter for `n` anywhere in its trace.  (The original claim's "its
manifest entry is unchanged" fails for the run as a whole: the
backup-mode archive phase may rewrite a skipped entry's archive
status, see the counterexample.) -/
theorem C1_amended (env : executor.ExecEnv) (fs : executor.FSModel)
    (cfg0 : executor.Config) (plan : DeletionPlanV1)
    (m0 : manifest.ExecutionManifestV1) (n : String)
    (hmode : cfg0.mode = executor.ModeDelete)
    (hex : fs.manifestExists = true)
    (hres : cfg0.resume = true)
    (hread : fs.manifestRead = .ok m0)
    (hfp : m0.planFingerprint = plan.fingerprint)
    (hm0 : m0.mode = executor.ModeDelete)
    (hdel : ∀ e ∈ m0.repoExecutions, e.fullName = n →
      e.status = manifest.StatusDeleted) :
    (∀ (mode : String) (entry : manifest.RepoExecutionEntry),
      executor.shouldSkipEntry mode entry = true ↔
        ((mode = executor.ModeDelete ∧ entry.status = manifest.StatusDeleted) ∨
         (mode ≠ executor.ModeDelete ∧ entry.status = manifest.StatusBackupOK ∧
           entry.bundlePath ≠ ""))) ∧
    (∀ (mode : String) (retries : Nat) (bp : executor.BackupProviderModel)
      (del : String → Nat → Option String) (lookupRepo : String → Option RepoRecord)
      (mpath root : String)
      (mk : manifest.RepoExecutionEntry → manifest.ExecutionManifestV1)
      (entry : manifest.RepoExecutionEntry),
      executor.shouldSkipEntry mode entry = true →
      executor.processEntry env mode retries bp del lookupRepo mpath root mk entry =
        (entry, [], [], false)) ∧
    ((executor.Execute env fs cfg0 plan).2.filter (executor.Event.isDeleteFor n)) = [] := by
  refine ⟨?_, ?_, ?_⟩
  · intro mode entry
    by_cases h : mode = executor.ModeDelete <;>
      simp [executor.shouldSkipEntry, h]
  · intro mode retries bp del lookupRepo mpath root mk entry h
    exact processEntry_skip env mode retries bp del lookupRepo mpath root mk entry h
  · exact execute_delete_resume_no_delete env fs cfg0 plan m0 n hmode hex hres hread
      hfp hm0 hdel

/-- C1 witness: the amended statement at a concrete resumed delete-mode
run with `alice/r1` already deleted and `alice/r2` still pending: the
already-deleted target is skip-eligible and the trace holds no deleter
call for it, while the still-pending target is in fact deleted in this
very run (two retried attempts), so the pass is not vacuous. -/
theorem C1_amended_witness :
    executor.shouldSkipEntry executor.ModeDelete c1DelEntry = true ∧
    ((executor.Execute c6Env c1DelFS c1DelCfg fixPlan).2.filter
        (executor.Event.isDeleteFor "alice/r1")) = [] ∧
    ((executor.Execute c6Env c1DelFS c1DelCfg fixPlan).2.filter
        (executor.Event.isDeleteFor "alice/r2")).length = 2 := by
  have h := C1_amended c6Env c1DelFS c1DelCfg fixPlan c1DelManifest "alice/r1"
    rfl rfl rfl rfl (by decide) rfl (by decide)
  exact ⟨(h.1 executor.ModeDelete c1DelEntry).mpr (Or.inl ⟨rfl, rfl⟩), h.2.2, by decide⟩

/-! ## Claim C2 -/

theorem markArchiveFailure_marks (mm : manifest.ExecutionManifestV1) (et : String)
    (targets : List manifest.BundleArtifact) (e : manifest.RepoExecutionEntry)
    (he : e ∈ mm.repoExecutions)
    (hn : e.fullName ∈ targets.map (fun t => t.fullName))
    (hs : e.status = manifest.StatusBackupOK) (hb : e.bundlePath ≠ "") :
    { e with archiveStatus := "archive_failed", error := et } ∈
      (executor.markArchiveFailure mm et targets).repoExecutions := by
  unfold executor.markArchiveFailure
  simp only []
  have hc : (targets.map (fun t => t.fullName)).contains e.fullName = true := by
    simpa using hn
  refine List.mem_map.mpr ⟨e, he, ?_⟩
  rw [if_pos ⟨hc, hs, hb⟩]

theorem archivePhase_ensure_fail (env : executor.ExecEnv) (fs : executor.FSModel)
    (cfg : executor.Config) (plan : DeletionPlanV1) (root mpath : String)
    (m : manifest.ExecutionManifestV1) (bundles : List manifest.BundleArtifact)
    (eligible : List manifest.BundleArtifact) (sizeSkipped : List String)
    (m1 : manifest.ExecutionManifestV1) (evsF : List executor.Event)
    (mgr : String → String → Option String)
    (pub : String → String → String → List manifest.BundleArtifact → String →
      Except String String)
    (err : String)
    (hmode : cfg.mode = executor.ModeBackup)
    (hna : cfg.noArchive = false)
    (hbne : bundles ≠ [])
    (hmgr : env.repoMgr = some mgr)
    (hpub : env.archive = some pub)
    (hr : cfg.archiveRepo ≠ "")
    (hbr : cfg.archiveBranch ≠ "")
    (hv : cfg.archiveVisibility ≠ "")
    (hfil : executor.filterArchiveBundlesBySize fs root bundles m
      executor.archiveMaxBundleSizeBytes = (eligible, sizeSkipped, m1, evsF))
    (heli : eligible ≠ [])
    (hens : mgr cfg.archiveRepo cfg.archiveVisibility = some err) :
    executor.archivePhase env fs cfg plan root mpath m bundles =
      (cfg,
       executor.markArchiveFailure (manifest.Touch m1 env.nowTs) err eligible,
       "",
       (evsF ++ [executor.Event.writeManifest mpath
           (manifest.writeView (manifest.Touch m1 env.nowTs))] ++
         (if sizeSkipped ≠ [] then
           [executor.Event.print ("Archive size-skip: " ++ toString sizeSkipped.length ++
             " bundle(s) moved to " ++ joinPath root "archive-skipped-size" ++ "\n")]
          else [])) ++
        [executor.Event.callEnsureRepo cfg.archiveRepo cfg.archiveVisibility,
         executor.Event.writeManifest mpath (manifest.writeView
           (executor.markArchiveFailure (manifest.Touch m1 env.nowTs) err eligible))],
       some err) := by
  unfold executor.archivePhase
  rw [hfil]
  simp only [hmode, hna, hbne, hmgr, hpub, hens, heli, if_neg hr, if_neg hbr, if_neg hv,
    if_true, if_false, ite_true, ite_false, Bool.false_eq_true, not_false_iff, true_and,
    and_true, ne_eq]
  simp [heli]
  rw [← hmode, ← hna]

theorem archivePhase_publish_fail (env : executor.ExecEnv) (fs : executor.FSModel)
    (cfg : executor.Config) (plan : DeletionPlanV1) (root mpath : String)
    (m : manifest.ExecutionManifestV1) (bundles : List manifest.BundleArtifact)
    (eligible : List manifest.BundleArtifact) (sizeSkipped : List String)
    (m1 : manifest.ExecutionManifestV1) (evsF : List executor.Event)
    (mgr : String → String → Option String)
    (pub : String → String → String → List manifest.BundleArtifact → String →
      Except String String)
    (perr : String)
    (hmode : cfg.mode = executor.ModeBackup)
    (hna : cfg.noArchive = false)
    (hbne : bundles ≠ [])
    (hmgr : env.repoMgr = some mgr)
    (hpub : env.archive = some pub)
    (hr : cfg.archiveRepo ≠ "")
    (hbr : cfg.archiveBranch ≠ "")
    (hv : cfg.archiveVisibility ≠ "")
    (hfil : executor.filterArchiveBundlesBySize fs root bundles m
      executor.archiveMaxBundleSizeBytes = (eligible, sizeSkipped, m1, evsF))
    (heli : eligible ≠ [])
    (hens : mgr cfg.archiveRepo cfg.archiveVisibility = none)
    (hpf : pub cfg.archiveRepo cfg.archiveBranch root eligible plan.fingerprint =
      .error perr) :
    executor.archivePhase env fs cfg plan root mpath m bundles =
      (cfg,
       manifest.Touch (executor.markArchiveFailure (manifest.Touch m1 env.nowTs) perr
         eligible) env.nowTs,
       "",
       (evsF ++ [executor.Event.writeManifest mpath
           (manifest.writeView (manifest.Touch m1 env.nowTs))] ++
         (if sizeSkipped ≠ [] then
           [executor.Event.print ("Archive size-skip: " ++ toString sizeSkipped.length ++
             " bundle(s) moved to " ++ joinPath root "archive-skipped-size" ++ "\n")]
          else [])) ++
        [executor.Event.callEnsureRepo cfg.archiveRepo cfg.archiveVisibility,
         executor.Event.callPublish cfg.archiveRepo cfg.archiveBranch,
         executor.Event.writeManifest mpath (manifest.writeView
           (manifest.Touch (executor.markArchiveFailure (manifest.Touch m1 env.nowTs)
             perr eligible) env.nowTs)),
         executor.Event.print ("Archive publish failed: " ++ perr ++ "\n")],
       none) := by
  unfold executor.archivePhase
  rw [hfil]
  simp only [hmode, hna, hbne, hmgr, hpub, hens, hpf, heli, if_neg hr, if_neg hbr,
    if_neg hv, if_true, if_false, ite_true, ite_false, Bool.false_eq_true,
    not_false_iff, true_and, and_true, ne_eq]
  simp [heli]
  rw [← hmode, ← hna]

/-- C2 counterexample: a failing archive ensure-repo operation is fatal
to the invocation, not batch-level-recovered: with two eligible
bundles, Execute returns the ensure error instead of a Result, even
though the eligible entries were marked `archive_failed` with the
error text and the manifest was persisted (the completed backup work
stays recorded). -/
theorem C2_counterexample :
    (executor.Execute c2EnsEnv c4FS c2Cfg fixPlan).1 = .error "ensure boom" ∧
    ((lastManifestPayload (executor.Execute c2EnsEnv c4FS c2Cfg fixPlan).2).map
      (fun mm => mm.repoExecutions.map (fun e => (e.status, e.archiveStatus, e.error)))) =
      some [("backup_ok", "archive_failed", "ensure boom"),
            ("backup_ok", "archive_failed", "ensure boom")] :=
  ⟨rfl, rfl⟩

/-- C2 (amended): with at least one bundle eligible after size
filtering, the two archive-batch failures behave differently.  An
ensure-repo failure marks the manifest with `markArchiveFailure`,
persists it, and is fatal: the archive phase reports the error, which
Execute returns.  A publish failure is batch-level and non-fatal: the
marked manifest is persisted and the phase reports no fatal error, so
Execute still returns a Result reporting the already-completed items —
shown universally at the phase level and end-to-end at a concrete
publish-failure run.  `markArchiveFailure` marks every entry named by
an eligible bundle that is `backup_ok` with a bundle path with
`archive_failed` and the error text. -/
theorem C2_amended :
    (∀ (env : executor.ExecEnv) (fs : executor.FSModel) (cfg : executor.Config)
      (plan : DeletionPlanV1) (root mpath : String) (m : manifest.ExecutionManifestV1)
      (bundles eligible : List manifest.BundleArtifact) (sizeSkipped : List String)
      (m1 : manifest.ExecutionManifestV1) (evsF : List executor.Event)
      (mgr : String → String → Option String)
      (pub : String → String → String → List manifest.BundleArtifact → String →
        Except String String)
      (err : String),
      cfg.mode = executor.ModeBackup → cfg.noArchive = false → bundles ≠ [] →
      env.repoMgr = some mgr → env.archive = some pub →
      cfg.archiveRepo ≠ "" → cfg.archiveBranch ≠ "" → cfg.archiveVisibility ≠ "" →
      executor.filterArchiveBundlesBySize fs root bundles m
        executor.archiveMaxBundleSizeBytes = (eligible, sizeSkipped, m1, evsF) →
      eligible ≠ [] →
      mgr cfg.archiveRepo cfg.archiveVisibility = some err →
      (executor.archivePhase env fs cfg plan root mpath m bundles).2.2.2.2 = some err ∧
      (executor.archivePhase env fs cfg plan root mpath m bundles).2.1 =
        executor.markArchiveFailure (manifest.Touch m1 env.nowTs) err eligible ∧
      lastManifestPayload (executor.archivePhase env fs cfg plan root mpath m
          bundles).2.2.2.1 =
        some (manifest.writeView (executor.markArchiveFailure (manifest.Touch m1
          env.nowTs) err eligible))) ∧
    (∀ (env : executor.ExecEnv) (fs : executor.FSModel) (cfg : executor.Config)
      (plan : DeletionPlanV1) (root mpath : String) (m : manifest.ExecutionManifestV1)
      (bundles eligible : List manifest.BundleArtifact) (sizeSkipped : List String)
      (m1 : manifest.ExecutionManifestV1) (evsF : List executor.Event)
      (mgr : String → String → Option String)
      (pub : String → String → String → List manifest.BundleArtifact → String →
        Except String String)
      (perr : String),
      cfg.mode = executor.ModeBackup → cfg.noArchive = false → bundles ≠ [] →
      env.repoMgr = some mgr → env.archive = some pub →
      cfg.archiveRepo ≠ "" → cfg.archiveBranch ≠ "" → cfg.archiveVisibility ≠ "" →
      executor.filterArchiveBundlesBySize fs root bundles m
        executor.archiveMaxBundleSizeBytes = (eligible, sizeSkipped, m1, evsF) →
      eligible ≠ [] →
      mgr cfg.archiveRepo cfg.archiveVisibility = none →
      pub cfg.archiveRepo cfg.archiveBranch root eligible plan.fingerprint =
        .error perr →
      (executor.archivePhase env fs cfg plan root mpath m bundles).2.2.2.2 = none ∧
      (executor.archivePhase env fs cfg plan root mpath m bundles).2.1 =
        manifest.Touch (executor.markArchiveFailure (manifest.Touch m1 env.nowTs)
          perr eligible) env.nowTs ∧
      lastManifestPayload (executor.archivePhase env fs cfg plan root mpath m
          bundles).2.2.2.1 =
        some (manifest.writeView (manifest.Touch (executor.markArchiveFailure
          (manifest.Touch m1 env.nowTs) perr eligible) env.nowTs))) ∧
    (∀ (mm : manifest.ExecutionManifestV1) (et : String)
      (targets : List manifest.BundleArtifact) (e : manifest.RepoExecutionEntry),
      e ∈ mm.repoExecutions → e.fullName ∈ targets.map (fun t => t.fullName) →
      e.status = manifest.StatusBackupOK → e.bundlePath ≠ "" →
      { e with archiveStatus := "archive_failed", error := et } ∈
        (executor.markArchiveFailure mm et targets).repoExecutions) ∧
    ((executor.Execute c2PubEnv c4FS c2Cfg fixPlan).1.toOption.map
      (fun r => (r.total, r.failed, r.archiveFailed))) = some (2, 0, 2) ∧
    ((lastManifestPayload (executor.Execute c2PubEnv c4FS c2Cfg fixPlan).2).map
      (fun mm => mm.repoExecutions.map (fun e => (e.status, e.archiveStatus, e.error)))) =
      some [("backup_ok", "archive_failed", "publish boom"),
            ("backup_ok", "archive_failed", "publish boom")] := by
  refine ⟨?_, ?_, ?_, rfl, rfl⟩
  · intro env fs cfg plan root mpath m bundles eligible sizeSkipped m1 evsF mgr pub err
      hmode hna hbne hmgr hpub hr hbr hv hfil heli hens
    rw [archivePhase_ensure_fail env fs cfg plan root mpath m bundles eligible
      sizeSkipped m1 evsF mgr pub err hmode hna hbne hmgr hpub hr hbr hv hfil heli hens]
    refine ⟨rfl, rfl, ?_⟩
    unfold lastManifestPayload
    rw [List.filterMap_append]
    rw [List.getLast?_append_of_ne_nil]
    · rfl
    · simp
  · intro env fs cfg plan root mpath m bundles eligible sizeSkipped m1 evsF mgr pub perr
      hmode hna hbne hmgr hpub hr hbr hv hfil heli hens hpf
    rw [archivePhase_publish_fail env fs cfg plan root mpath m bundles eligible
      sizeSkipped m1 evsF mgr pub perr hmode hna hbne hmgr hpub hr hbr hv hfil heli
      hens hpf]
    refine ⟨rfl, rfl, ?_⟩
    unfold lastManifestPayload
    rw [List.filterMap_append]
    rw [List.getLast?_append_of_ne_nil]
    · rfl
    · simp
  · intro mm et targets e he hn hs hb
    exact markArchiveFailure_marks mm et targets e he hn hs hb

/-- C2 witness: the amended statement at concrete fixtures — a failing
ensure-repo marks the phase fatal with its error, a failing publish is
non-fatal, and the marking rewrites a concrete `backup_ok` entry. -/
theorem C2_amended_witness :
    (executor.archivePhase c2EnsEnv c4FS c2Cfg fixPlan "/root/backup" "/m" c2M
      c2Bundles).2.2.2.2 = some "ensure boom" ∧
    (executor.archivePhase c2PubEnv c4FS c2Cfg fixPlan "/root/backup" "/m" c2M
      c2Bundles).2.2.2.2 = none ∧
    { c1DoneEntry with archiveStatus := "archive_failed", error := "boom" } ∈
      (executor.markArchiveFailure c2M "boom" c2Bundles).repoExecutions := by
  refine ⟨?_, ?_, ?_⟩
  · exact (C2_amended.1 c2EnsEnv c4FS c2Cfg fixPlan "/root/backup" "/m" c2M
      c2Bundles c2Bundles [] c2M
      [executor.Event.mkdirAll (joinPath "/root/backup" "archive-skipped-size"),
       executor.Event.statFile "/bd", executor.Event.statFile "/bd"]
      c2EnsMgr (fun _ _ _ _ _ => .ok "deadbeef") "ensure boom"
      rfl rfl (by decide) rfl rfl (by decide) (by decide) (by decide) rfl (by decide)
      rfl).1
  · exact (C2_amended.2.1 c2PubEnv c4FS c2Cfg fixPlan "/root/backup" "/m" c2M
      c2Bundles c2Bundles [] c2M
      [executor.Event.mkdirAll (joinPath "/root/backup" "archive-skipped-size"),
       executor.Event.statFile "/bd", executor.Event.statFile "/bd"]
      c2OkMgr c2FailPub "publish boom"
      rfl rfl (by decide) rfl rfl (by decide) (by decide) (by decide) rfl (by decide)
      rfl rfl).1
  · exact C2_amended.2.2.1 c2M "boom" c2Bundles c1DoneEntry (by decide) (by decide)
      rfl (by decide)

/-! ## Claim C8 -/

theorem asciiLowerChar_hexChar (n : Nat) : asciiLowerChar (hexChar n) = hexChar n := by
  have h : n % 16 < 16 := Nat.mod_lt _ (by omega)
  unfold hexChar
  set m := n % 16 with hm
  interval_cases m <;> decide

theorem lower_hexData : ∀ bs : List Nat,
    (bs.flatMap (fun b => [hexChar (b / 16), hexChar b])).map asciiLowerChar =
      bs.flatMap (fun b => [hexChar (b / 16), hexChar b])
  | [] => rfl
  | b :: bs => by
    simp only [List.flatMap_cons, List.map_append, List.map_cons, List.map_nil,
      asciiLowerChar_hexChar, lower_hexData bs]

theorem strToLower_bytesToHex (bs : List Nat) :
    strToLower (bytesToHex bs) = bytesToHex bs :=
  congrArg String.mk (lower_hexData bs)

theorem sign_ok (p : DeletionPlanV1) (secret : List Nat) (hs : secret ≠ []) :
    planfile.Sign p secret = .ok (signedPlan p secret) := by
  unfold planfile.Sign signedPlan
  rw [if_neg (by simp [List.length_eq_zero, hs])]

theorem validate_signedPlan (p : DeletionPlanV1) (secret : List Nat)
    (hv : p.schemaVersion = "v1") (hc : p.count = Int.ofNat p.repos.length)
    (ht : rfc3339Parses p.createdAt = true) :
    planfile.Validate (signedPlan p secret) secret = .ok () := by
  have hfp : planfile.ComputeFingerprint (signedPlan p secret) =
      planfile.ComputeFingerprint p := rfl
  unfold planfile.Validate
  rw [if_neg (by simp [signedPlan, hv]), if_neg (by simp [signedPlan, hc]),
    if_neg (by simp [signedPlan, ht]), hfp]
  rw [if_neg (by simp [signedPlan])]
  rw [if_neg]
  simp only [signedPlan, strToLower_bytesToHex, ne_eq, not_true_eq_false,
    not_false_eq_true, not_not]

theorem c8Fp_eval : planfile.ComputeFingerprint c8Base = c8Fp := rfl

theorem c8FpTampered_eval : planfile.ComputeFingerprint c8Tampered = c8FpTampered := rfl

theorem c8Sig_eval : bytesToHex (hmacSha256 c8Secret (strBytes c8Fp)) = c8Sig := rfl

theorem c8Sig2_eval : bytesToHex (hmacSha256 c8OtherSecret (strBytes c8Fp)) = c8Sig2 := rfl

theorem c8Json_swapped :
    planfile.canonicalPlanJson c8Swapped = planfile.canonicalPlanJson c8Base := rfl

theorem c8Fp_swapped :
    planfile.ComputeFingerprint c8Swapped = planfile.ComputeFingerprint c8Base :=
  congrArg (fun s => bytesToHex (sha256 (strBytes s))) c8Json_swapped

theorem c8Signed_sig : strToLower c8Signed.signature = c8Sig := by
  have h1 : c8Signed.signature =
      bytesToHex (hmacSha256 c8Secret (strBytes (planfile.ComputeFingerprint c8Base))) := rfl
  rw [h1, c8Fp_eval, c8Sig_eval]
  rfl

theorem validate_swapped : planfile.Validate c8Swapped c8Secret = .ok () := by
  have hsf : c8Swapped.fingerprint = c8Fp := c8Fp_eval
  have hss : strToLower c8Swapped.signature = c8Sig := c8Signed_sig
  unfold planfile.Validate
  rw [if_neg (by decide), if_neg (by decide), if_neg (by decide)]
  rw [c8Fp_swapped, c8Fp_eval, hsf, hss]
  rw [if_neg (by decide), if_neg (by decide)]

theorem validate_tampered :
    planfile.Validate c8Tampered c8Secret = .error "fingerprint mismatch" := by
  have hsf : c8Tampered.fingerprint = c8Fp := c8Fp_eval
  unfold planfile.Validate
  rw [if_neg (by decide), if_neg (by decide), if_neg (by decide)]
  rw [c8FpTampered_eval, hsf]
  rw [if_pos (by decide)]

theorem validate_otherSecret :
    planfile.Validate c8Signed c8OtherSecret = .error "invalid signature" := by
  have hsf : c8Signed.fingerprint = c8Fp := c8Fp_eval
  have hfp : planfile.ComputeFingerprint c8Signed = planfile.ComputeFingerprint c8Base :=
    rfl
  unfold planfile.Validate
  rw [if_neg (by decide), if_neg (by decide), if_neg (by decide)]
  rw [hfp, c8Fp_eval, hsf]
  rw [if_neg (by decide)]
  rw [c8Sig2_eval, c8Signed_sig]
  rw [if_pos (by decide)]

/-- C8 counterexample: a post-signing mutation of the repos field of a
signed plan, swapping the two records in place, still validates with
the signing secret, because the fingerprint normalises record order
before hashing; so Validate does not fail after every post-signing
mutation of every plan field. -/
theorem C8_counterexample :
    planfile.Sign c8Base c8Secret = .ok c8Signed ∧
    c8Swapped.repos ≠ c8Signed.repos ∧
    planfile.Validate c8Swapped c8Secret = .ok () :=
  ⟨sign_ok c8Base c8Secret (by decide), by decide, validate_swapped⟩

/-- C8 (amended): for every plan passing the schema-version, count and
timestamp checks and every non-empty secret, Validate succeeds
immediately after Sign; validation sees mutations only through the
canonical projection and the stored fingerprint and signature, so a
mutation that merely reorders the repos list passes, while (shown at
the concrete fixture) a post-signing mutation that changes canonical
content fails validation, and validating with a different secret fails
validation. -/
theorem C8_amended (p : DeletionPlanV1) (secret : List Nat)
    (hs : secret ≠ []) (hv : p.schemaVersion = "v1")
    (hc : p.count = Int.ofNat p.repos.length)
    (ht : rfc3339Parses p.createdAt = true) :
    (planfile.Sign p secret = .ok (signedPlan p secret) ∧
     planfile.Validate (signedPlan p secret) secret = .ok ()) ∧
    planfile.Validate c8Tampered c8Secret = .error "fingerprint mismatch" ∧
    planfile.Validate c8Signed c8OtherSecret = .error "invalid signature" :=
  ⟨⟨sign_ok p secret hs, validate_signedPlan p secret hv hc ht⟩,
   validate_tampered, validate_otherSecret⟩

/-- C8 witness: the amended statement applied to the concrete base plan
and secret, the hypotheses discharged by computation. -/
theorem C8_amended_witness :
    (planfile.Sign c8Base c8Secret = .ok (signedPlan c8Base c8Secret) ∧
     planfile.Validate (signedPlan c8Base c8Secret) c8Secret = .ok ()) ∧
    planfile.Validate c8Tampered c8Secret = .error "fingerprint mismatch" ∧
    planfile.Validate c8Signed c8OtherSecret = .error "invalid signature" :=
  C8_amended c8Base c8Secret (by decide) (by decide) (by decide) (by decide)

/-- C9 witness: the statement of `C9_counters` evaluated on the fixture
manifest with two concrete status edits, the permutation and
distinctness hypotheses discharged by computation. -/
theorem C9_counters_witness :
    applyEdits [(0, "deleted"), (1, "backup_failed")] fixManifest =
      applyEdits [(1, "backup_failed"), (0, "deleted")] fixManifest ∧
    (manifest.writeView (applyEdits [(0, "deleted"), (1, "backup_failed")]
      fixManifest)).deletedCount = 1 ∧
    (manifest.writeView (applyEdits [(0, "deleted"), (1, "backup_failed")]
      fixManifest)).failedCount = 1 := by
  have h := C9_counters fixManifest [(0, "deleted"), (1, "backup_failed")]
  refine ⟨h.2.2.2 [(1, "backup_failed"), (0, "deleted")] (by decide) (by decide), ?_, ?_⟩
  · rw [h.1]; decide
  · rw [h.2.1]; decide

end GhMgr
